import Mathlib

set_option autoImplicit false

/-
  Verification of the reversible cascading-deletion engine of the
  `automated_vocab` repository (src/words/data_service.py) against its
  natural-language specification.

  The embedding models the relational store of src/words/models.py as a list
  of (model, row) pairs with an auto-increment counter, the Django cache used
  as the operation store as an association list keyed by the
  "deletion_<operation id>" convention, and the four delete entry points plus
  `undo_deletion` of `DataService` as pure state-passing functions.  Fallible
  steps (JSON serialization of a snapshot, row saves that would violate the
  NOT NULL foreign-key columns declared in models.py) return `Except`.
-/

deriving instance DecidableEq for Except

namespace AutomatedVocab

/-- The manageable entity types of src/words/models.py that participate in the
deletion engine's parent/child relationships: each `<Language>Example` model
declares a single NOT NULL foreign key to its `<Language>Word` model. -/
inductive ModelName where
  | FrenchWord
  | FrenchExample
  | SpanishWord
  | SpanishExample
  | ItalianWord
  | ItalianExample
  | RussianWord
  | RussianExample
  | JapaneseWord
  | JapaneseExample
  deriving DecidableEq, Repr

/-- A column value.  Date/time values are already normalized to their text
representation (isoformat) by `_serialize_model_instance`; a value the
`DjangoJSONEncoder` cannot encode is tagged `unserializable` and makes
`json.dumps` raise `TypeError`. -/
inductive Value where
  | str (s : String)
  | unserializable (tag : String)
  deriving DecidableEq, Repr

def Value.serializable : Value → Bool
  | .str _ => true
  | .unserializable _ => false

/-- A stored row: its primary key `id`, the value of its single foreign-key
column when the model declares one (`french_word_id` etc.), and the remaining
non-relational columns. -/
structure Row where
  id : Nat
  parentId : Option Nat
  attrs : List (String × Value)
  deriving DecidableEq, Repr

/-- The database: a bag of rows tagged by model, plus the auto-increment
counter shared by the `AUTOINCREMENT` primary keys (ids of deleted rows are
never reused). -/
structure DB where
  rows : List (ModelName × Row)
  nextId : Nat
  deriving DecidableEq, Repr

def DB.table (db : DB) (m : ModelName) : List Row :=
  (db.rows.filter (fun e => e.1 == m)).map (fun e => e.2)

def DB.getById (db : DB) (m : ModelName) (i : Nat) : Option Row :=
  (db.table m).find? (fun r => r.id == i)

def DB.idExists (db : DB) (m : ModelName) (i : Nat) : Bool :=
  (db.table m).any (fun r => r.id == i)

/-- Schema registry, read off the `ForeignKey` declarations of
src/words/models.py: the parent model and foreign-key field name of each
example model (mirrors `DataService._get_parent_models`). -/
def fkField : ModelName → Option (ModelName × String)
  | .FrenchExample => some (.FrenchWord, "french_word")
  | .SpanishExample => some (.SpanishWord, "spanish_word")
  | .ItalianExample => some (.ItalianWord, "italian_word")
  | .RussianExample => some (.RussianWord, "russian_word")
  | .JapaneseExample => some (.JapaneseWord, "japanese_word")
  | _ => none

/-- Child models of a model together with the referencing field name
(mirrors `DataService._get_related_models` plus the field discovery loop the
delete operations run over `related_model._meta.fields`). -/
def relatedModels : ModelName → List (ModelName × String)
  | .FrenchWord => [(.FrenchExample, "french_word")]
  | .SpanishWord => [(.SpanishExample, "spanish_word")]
  | .ItalianWord => [(.ItalianExample, "italian_word")]
  | .RussianWord => [(.RussianExample, "russian_word")]
  | .JapaneseWord => [(.JapaneseExample, "japanese_word")]
  | _ => []

/-- Whether the model's foreign-key column is NOT NULL (every example model's
foreign key is declared without `null=True` in models.py, so saving such a row
with no parent reference raises an IntegrityError). -/
def requiresParent (m : ModelName) : Bool := (fkField m).isSome

/-- Non-relational field names of each model, from src/words/models.py
(`id` and the foreign-key columns are handled separately). -/
def attrFields : ModelName → List String
  | .FrenchExample | .SpanishExample | .ItalianExample | .RussianExample
  | .JapaneseExample =>
      ["example_text", "is_explanation", "created_at"]
  | .JapaneseWord =>
      ["noun_form", "verb_form", "adjective_form", "adverb_form",
       "synonym_noun_form", "synonym_verb_form", "synonym_adjective_form",
       "synonym_adverb_form", "antonym_noun_form", "antonym_verb_form",
       "antonym_adjective_form", "antonym_adverb_form", "original_phrase",
       "created_at", "marked_for_review", "frequency", "category",
       "category_2", "explanation", "native", "kanji_form", "kana_reading",
       "romaji", "furigana"]
  | _ =>
      ["noun_form", "verb_form", "adjective_form", "adverb_form",
       "synonym_noun_form", "synonym_verb_form", "synonym_adjective_form",
       "synonym_adverb_form", "antonym_noun_form", "antonym_verb_form",
       "antonym_adjective_form", "antonym_adverb_form", "original_phrase",
       "created_at", "marked_for_review", "frequency", "category",
       "category_2", "explanation", "native"]

/-- The attribute name of the foreign-key column (Django's `attname`,
e.g. "french_word_id"). -/
def fkAttname (m : ModelName) : Option String :=
  (fkField m).map (fun p => p.2 ++ "_id")

/-- `hasattr(model_class, field_name)` over the model's class attributes:
`id`, every declared field, the foreign-key descriptor and its `_id`
attribute. -/
def hasField (m : ModelName) (f : String) : Bool :=
  f == "id" || (attrFields m).contains f
    || (fkField m).map (fun p => p.2) == some f || fkAttname m == some f

/-- `DataService._serialize_model_instance`: every field except `id` and
fields ending in `_id`; values that are Django model instances (the
foreign-key descriptor value) are skipped, so the serialized dictionary of a
child row carries no reference to its parent; `id` is then added back. -/
structure SRow where
  id : Nat
  attrs : List (String × Value)
  deriving DecidableEq, Repr

def serialize_model_instance (r : Row) : SRow := ⟨r.id, r.attrs⟩

def SRow.serializable (sr : SRow) : Bool :=
  sr.attrs.all (fun a => a.2.serializable)

/-- An entry of a snapshot's `related_data[...]["instances"]`: the serialized
child row, plus the `_parent_id` annotation when the capturing operation
recorded one (`delete_by_field_value`, `delete_by_id_range` and `delete_all`
record it; `delete_by_id` does not). -/
structure RelRow where
  data : SRow
  parentId : Option Nat
  deriving DecidableEq, Repr

/-- A snapshot's `related_data[related_model_name]` value: the referencing
field name (stored only once the first related instance is stored, hence
absent for an empty group) and the serialized instances. -/
structure RelatedGroup where
  field_name : Option String
  instances : List RelRow
  deriving DecidableEq, Repr

/-- A snapshot's `parent_data[parent_model_name]` value: the referencing field
name, the ancestor's id, and its serialized data when the ancestor row still
existed at capture time. -/
structure ParentEntry where
  field_name : String
  id : Nat
  data : Option SRow
  deriving DecidableEq, Repr

/-- An entry of a snapshot's `manually_deleted_examples`: a serialized
FrenchExample together with the id of the FrenchWord it belonged to. -/
structure ManualExample where
  data : SRow
  french_word_id : Nat
  deriving DecidableEq, Repr

/-- Which of the mutually exclusive marker keys the deletion stored:
none (single-id deletion), `by_field`, `is_range` or `is_all`; `undo_deletion`
branches on these. -/
inductive DelMode where
  | single
  | byField
  | range
  | all
  deriving DecidableEq, Repr

/-- The `deleted_data` document a delete operation serializes into the cache:
the primary model name, the selection-mode marker, `data` (single-id
deletions) or `instances` (the other modes), `related_data`, `parent_data`,
`parent_to_delete` and `manually_deleted_examples`. -/
structure Snapshot where
  model : ModelName
  mode : DelMode
  data : Option SRow
  instances : List SRow
  related_data : List (ModelName × RelatedGroup)
  parent_data : List (ModelName × ParentEntry)
  parent_to_delete : Option (ModelName × SRow)
  manually_deleted_examples : List ManualExample
  deriving DecidableEq, Repr

/-- Whether `json.dumps(deleted_data, cls=DjangoJSONEncoder)` succeeds: it
fails with `TypeError` exactly when some captured value is not encodable. -/
def Snapshot.jsonSerializable (s : Snapshot) : Bool :=
  (match s.data with | some d => d.serializable | none => true)
    && s.instances.all SRow.serializable
    && s.related_data.all (fun g => g.2.instances.all (fun rr => rr.data.serializable))
    && s.parent_data.all (fun p => match p.2.data with
        | some d => d.serializable
        | none => true)
    && (match s.parent_to_delete with | some p => p.2.serializable | none => true)
    && s.manually_deleted_examples.all (fun me => me.data.serializable)

/-- The operation store: the process-wide Django cache, keyed by
"deletion_<operation id>".  The one-hour TTL is outside the state model; an
expired or unknown key simply looks up to `none`. -/
abbrev Cache := List (String × Snapshot)

def cacheGet (c : Cache) (k : String) : Option Snapshot :=
  (c.find? (fun e => e.1 == k)).map (fun e => e.2)

def cacheSet (c : Cache) (k : String) (v : Snapshot) : Cache :=
  (k, v) :: c.filter (fun e => !(e.1 == k))

def cacheDelete (c : Cache) (k : String) : Cache :=
  c.filter (fun e => !(e.1 == k))

/-- The joint state a `DataService` operation reads and writes: the database
and the cache. -/
structure OpState where
  db : DB
  cache : Cache
  deriving DecidableEq, Repr

/-- Deletion of a set of primary rows by id: removes those rows and, via the
`on_delete=CASCADE` of every child model's foreign key, every child row
referencing one of them (this is what `instance.delete()` /
`instances.delete()` do at the database level). -/
def isCascadeVictim (m : ModelName) (ids : List Nat) (e : ModelName × Row) : Bool :=
  (e.1 == m && ids.contains e.2.id)
    || ((relatedModels m).any (fun c => c.1 == e.1)
        && (match e.2.parentId with | some w => ids.contains w | none => false))

def cascadeDelete (db : DB) (m : ModelName) (ids : List Nat) : DB :=
  { db with rows := db.rows.filter (fun e => !isCascadeVictim m ids e) }

/-- Errors a delete operation reports through its `(False, message, ...)`
return value. -/
inductive DelErr where
  | notFound (msg : String)
  | serialization (msg : String)
  | fieldMissing (msg : String)
  | dbError (msg : String)
  deriving DecidableEq, Repr

/-- The `deleted_data` document built by `DataService.delete_by_id` before it
deletes anything (lines 92-182 of data_service.py): the serialized instance,
the manually tracked FrenchExamples when the model is FrenchWord, the child
rows grouped per related model (a group is stored only when matching child
rows exist, and without a `_parent_id` annotation), the referenced ancestors
under `parent_data`, and — for a FrenchExample that is the last example of its
word — the word's data under `parent_to_delete` (a missing word row is
swallowed by the surrounding `except` and leaves `parent_to_delete` unset). -/
def buildDeleteByIdSnapshot (db : DB) (m : ModelName) (i : Nat) (inst : Row) :
    Snapshot where
  model := m
  mode := .single
  data := some (serialize_model_instance inst)
  instances := []
  related_data :=
    (relatedModels m).filterMap (fun c =>
      let insts := (db.table c.1).filter (fun r => r.parentId == some i)
      if insts.isEmpty then none
      else some (c.1, ⟨some c.2,
        insts.map (fun r => ⟨serialize_model_instance r, none⟩)⟩))
  parent_data :=
    match fkField m with
    | none => []
    | some (pm, fname) =>
      match inst.parentId with
      | none => []
      | some pid =>
          [(pm, ⟨fname, pid, (db.getById pm pid).map serialize_model_instance⟩)]
  parent_to_delete :=
    if m == .FrenchExample then
      match inst.parentId with
      | none => none
      | some w =>
        if (db.table .FrenchExample).any
            (fun e => e.parentId == some w && !(e.id == i)) then none
        else (db.getById .FrenchWord w).map
          (fun fw => (.FrenchWord, serialize_model_instance fw))
    else none
  manually_deleted_examples :=
    if m == .FrenchWord then
      ((db.table .FrenchExample).filter (fun e => e.parentId == some i)).map
        (fun e => ⟨serialize_model_instance e, i⟩)
    else []

/-- `DataService.delete_by_id(model_class, id_value)`: captures the snapshot,
persists it under a fresh operation id (one-hour TTL) and only then deletes
the row (cascading to its children); a FrenchExample that was the last
example of its FrenchWord additionally deletes that word afterwards.  Returns
the Python `(success, message)` pair as `Except`: the success payload is the
operation id alone — the 2-tuple carries no affected count. -/
def delete_by_id (m : ModelName) (i : Nat) (s : OpState) (opId : String) :
    Except DelErr String × OpState :=
  match s.db.getById m i with
  | none => (.error (.notFound "record with this ID does not exist"), s)
  | some inst =>
    let snap := buildDeleteByIdSnapshot s.db m i inst
    if snap.jsonSerializable then
      let cache1 := cacheSet s.cache ("deletion_" ++ opId) snap
      let db1 := cascadeDelete s.db m [i]
      let db2 :=
        if m == .FrenchExample && snap.parent_to_delete.isSome then
          match inst.parentId with
          | some w =>
            if (db1.table .FrenchExample).any (fun e => e.parentId == some w)
            then db1
            else cascadeDelete db1 .FrenchWord [w]
          | none => db1
        else db1
      (.ok opId, ⟨db2, cache1⟩)
    else (.error (.serialization "Error preparing data for caching"), s)

/-- Field-name validation of `delete_by_field_value`: an unknown name not
ending in `_id` gets `_id` appended and is re-checked; an unknown name ending
in `_id` reaches the query set and raises a `FieldError` that the outer
`except` turns into a failure. -/
def resolveFieldName (m : ModelName) (f : String) : Except DelErr String :=
  if hasField m f then .ok f
  else if !f.endsWith "_id" then
    if hasField m (f ++ "_id") then .ok (f ++ "_id")
    else .error (.fieldMissing "Field does not exist on model")
  else .error (.dbError "FieldError: cannot resolve keyword into field")

/-- Row filtering by a (validated) field name against an integer value:
`id` matches the primary key, the foreign-key field or its `_id` attribute
matches the parent reference, any other field compares against the value's
text form (Django string-compares an integer filter value on a text
column). -/
def fieldMatches (m : ModelName) (f : String) (v : Nat) (r : Row) : Bool :=
  if f == "id" then r.id == v
  else if (fkField m).map (fun p => p.2) == some f || fkAttname m == some f then
    r.parentId == some v
  else ((r.attrs.find? (fun a => a.1 == f)).map (fun a => a.2))
      == some (Value.str (toString v))

/-- The `deleted_data` document built by `DataService.delete_by_field_value`
(lines 257-324): matched instances serialized, every related model given a
group (empty groups keep no field name), each stored child row annotated with
`_parent_id`, and — when `delete_related_parent` is set on a recognized
foreign-key field — the parent row under `parent_to_delete` when it exists (a
missing parent is only a logged warning).  `parent_data` is initialized but
never filled by this operation. -/
def buildByFieldSnapshot (db : DB) (m : ModelName) (fres : String) (v : Nat)
    (deleteRelatedParent : Bool) (matched : List Row) : Snapshot where
  model := m
  mode := .byField
  data := none
  instances := matched.map serialize_model_instance
  related_data :=
    (relatedModels m).map (fun c =>
      let insts := (db.table c.1).filter (fun r =>
        match r.parentId with
        | some w => (matched.map (fun x => x.id)).contains w
        | none => false)
      (c.1, ⟨if insts.isEmpty then none else some c.2,
        insts.map (fun r => ⟨serialize_model_instance r, r.parentId⟩)⟩))
  parent_data := []
  parent_to_delete :=
    if deleteRelatedParent && fkAttname m == some fres then
      match fkField m with
      | some (pm, _) =>
          (db.getById pm v).map (fun p => (pm, serialize_model_instance p))
      | none => none
    else none
  manually_deleted_examples := []

/-- `DataService.delete_by_field_value(model_class, field_name, field_value,
delete_related_parent)`: validates the field, fails with `NotFound` on zero
matches, captures and persists the snapshot, deletes the matched rows
(cascading), and deletes the referenced parent row afterwards only when
`delete_related_parent` is set, the field is a recognized foreign key and the
parent row existed at capture time.  Success payload: `(operation_id,
count)`. -/
def delete_by_field_value (m : ModelName) (f : String) (v : Nat)
    (deleteRelatedParent : Bool) (s : OpState) (opId : String) :
    Except DelErr (String × Nat) × OpState :=
  match resolveFieldName m f with
  | .error e => (.error e, s)
  | .ok fres =>
    let matched := (s.db.table m).filter (fieldMatches m fres v)
    if matched.isEmpty then
      (.error (.notFound "no records found with this field value"), s)
    else
      let snap := buildByFieldSnapshot s.db m fres v deleteRelatedParent matched
      if snap.jsonSerializable then
        let cache1 := cacheSet s.cache ("deletion_" ++ opId) snap
        let db1 := cascadeDelete s.db m (matched.map (fun x => x.id))
        let db2 :=
          if deleteRelatedParent && fkAttname m == some fres then
            match fkField m with
            | some (pm, _) =>
                if (s.db.getById pm v).isSome then cascadeDelete db1 pm [v]
                else db1
            | none => db1
          else db1
        (.ok (opId, matched.length), ⟨db2, cache1⟩)
      else (.error (.serialization "Error preparing data for caching"), s)

/-- The `deleted_data` document built by `DataService.delete_by_id_range`
(lines 369-432): range marker, matched instances, the FrenchExamples whose
`french_word_id` lies in the id range under `manually_deleted_examples` when
the model is FrenchWord, and per-related-model groups annotated with
`_parent_id`. -/
def buildRangeSnapshot (db : DB) (m : ModelName) (a b : Nat)
    (matched : List Row) : Snapshot where
  model := m
  mode := .range
  data := none
  instances := matched.map serialize_model_instance
  related_data :=
    (relatedModels m).map (fun c =>
      let insts := (db.table c.1).filter (fun r =>
        match r.parentId with
        | some w => (matched.map (fun x => x.id)).contains w
        | none => false)
      (c.1, ⟨if insts.isEmpty then none else some c.2,
        insts.map (fun r => ⟨serialize_model_instance r, r.parentId⟩)⟩))
  parent_data := []
  parent_to_delete := none
  manually_deleted_examples :=
    if m == .FrenchWord then
      (db.table .FrenchExample).filterMap (fun e =>
        match e.parentId with
        | some w => if a ≤ w && w ≤ b then
            some ⟨serialize_model_instance e, w⟩ else none
        | none => none)
    else []

/-- `DataService.delete_by_id_range(model_class, start_id, end_id)`: filters
`id__gte=start_id, id__lte=end_id` — the inclusive range exactly as given, with
no reordering of swapped bounds — fails with `NotFound` when nothing matches,
persists the snapshot and then deletes the matched rows (cascading).  Success
payload: `(operation_id, count)` where count is the number of matched primary
rows. -/
def delete_by_id_range (m : ModelName) (a b : Nat) (s : OpState)
    (opId : String) : Except DelErr (String × Nat) × OpState :=
  let matched := (s.db.table m).filter (fun r => a ≤ r.id && r.id ≤ b)
  if matched.isEmpty then
    (.error (.notFound "no records found in the ID range"), s)
  else
    let snap := buildRangeSnapshot s.db m a b matched
    if snap.jsonSerializable then
      (.ok (opId, matched.length),
        ⟨cascadeDelete s.db m (matched.map (fun x => x.id)),
         cacheSet s.cache ("deletion_" ++ opId) snap⟩)
    else (.error (.serialization "Error preparing data for caching"), s)

/-- The `deleted_data` document built by `DataService.delete_all` (lines
472-535): all-marker, every instance, all FrenchExamples under
`manually_deleted_examples` when the model is FrenchWord, and
per-related-model groups annotated with `_parent_id`. -/
def buildAllSnapshot (db : DB) (m : ModelName) (matched : List Row) :
    Snapshot where
  model := m
  mode := .all
  data := none
  instances := matched.map serialize_model_instance
  related_data :=
    (relatedModels m).map (fun c =>
      let insts := (db.table c.1).filter (fun r =>
        match r.parentId with
        | some w => (matched.map (fun x => x.id)).contains w
        | none => false)
      (c.1, ⟨if insts.isEmpty then none else some c.2,
        insts.map (fun r => ⟨serialize_model_instance r, r.parentId⟩)⟩))
  parent_data := []
  parent_to_delete := none
  manually_deleted_examples :=
    if m == .FrenchWord then
      (db.table .FrenchExample).filterMap (fun e =>
        match e.parentId with
        | some w => some ⟨serialize_model_instance e, w⟩
        | none => none)
    else []

/-- `DataService.delete_all(model_class)`: fails with `NotFound` on an empty
table, persists the snapshot, then deletes every row (cascading).  Success
payload: `(operation_id, count)`. -/
def delete_all (m : ModelName) (s : OpState) (opId : String) :
    Except DelErr (String × Nat) × OpState :=
  let matched := s.db.table m
  if matched.isEmpty then
    (.error (.notFound "no records found to delete"), s)
  else
    let snap := buildAllSnapshot s.db m matched
    if snap.jsonSerializable then
      (.ok (opId, matched.length),
        ⟨cascadeDelete s.db m (matched.map (fun x => x.id)),
         cacheSet s.cache ("deletion_" ++ opId) snap⟩)
    else (.error (.serialization "Error preparing data for caching"), s)

/-- The bound normalization performed by the HTTP view
`delete_record_range` (src/words/views.py lines 753-755) before it calls
`DataService.delete_by_id_range`: swapped bounds are reordered by the caller,
not by the service. -/
def delete_record_range (m : ModelName) (a b : Nat) (s : OpState)
    (opId : String) : Except DelErr (String × Nat) × OpState :=
  if a > b then delete_by_id_range m b a s opId
  else delete_by_id_range m a b s opId

/-- Errors that abort the restore transaction of `undo_deletion`: a row save
violating a NOT NULL foreign-key column (Django `IntegrityError`), or the
`NameError` the by-field restore path raises when the clearing step reads the
loop variable `instance_id` that was never assigned. -/
inductive UndoErr where
  | notNullViolation
  | nameError
  deriving DecidableEq, Repr

/-- `instance.save()` with an explicit primary key: updates the existing row
with that id when present, inserts otherwise (advancing the id sequence past
the explicit id). -/
def upsertRow (db : DB) (m : ModelName) (r : Row) : DB :=
  if db.idExists m r.id then
    { db with rows := db.rows.map (fun e =>
        if e.1 == m && e.2.id == r.id then (m, r) else e) }
  else
    { rows := db.rows ++ [(m, r)], nextId := max db.nextId (r.id + 1) }

/-- `instance.save()` including the database's NOT NULL check on the
foreign-key column of the example models (models.py declares every example's
foreign key without `null=True`). -/
def saveRow (db : DB) (m : ModelName) (r : Row) : Except UndoErr DB :=
  if requiresParent m && r.parentId.isNone then .error .notNullViolation
  else .ok (upsertRow db m r)

/-- A save with no explicit primary key: the row gets the next id from the
sequence. -/
def insertFresh (db : DB) (m : ModelName) (pid : Option Nat)
    (attrs : List (String × Value)) : DB × Nat :=
  (⟨db.rows ++ [(m, ⟨db.nextId, pid, attrs⟩)], db.nextId + 1⟩, db.nextId)

/-- Restore step 1 of `undo_deletion` (lines 587-602): when the snapshot has a
`parent_to_delete`, recreate that row with its original id unless a row with
that id already exists (idempotence guard).  Returns the restored-row
count contribution. -/
def restoreParentStep (db : DB) (snap : Snapshot) : Except UndoErr (DB × Nat) :=
  match snap.parent_to_delete with
  | none => .ok (db, 0)
  | some (pm, sr) =>
    if db.idExists pm sr.id then .ok (db, 0)
    else
      match saveRow db pm ⟨sr.id, none, sr.attrs⟩ with
      | .error e => .error e
      | .ok db1 => .ok (db1, 1)

/-- Restoring the serialized `instances` of a bulk snapshot (by-field, range
or all): each is rebuilt from its serialized fields — which never include the
foreign-key column, because `_serialize_model_instance` skipped it — with its
original id, and saved; the first failing save aborts. -/
def restoreInstances : DB → ModelName → List SRow → Except UndoErr DB
  | db, _, [] => .ok db
  | db, m, sr :: t =>
    match saveRow db m ⟨sr.id, none, sr.attrs⟩ with
    | .error e => .error e
    | .ok d => restoreInstances d m t

/-- Restoring one `related_data` child row in the by-field / range / all
paths (lines 625-638 and 659-670): a row without a `_parent_id` annotation is
skipped; otherwise the parent is looked up among the rows of the primary
model and, when found, the child is saved with its original id and its
foreign key pointed at the parent — when the parent is missing the child is
only logged as a warning and skipped (no stub is created here). -/
def restoreRelRow (m : ModelName) (relName : ModelName) (db : DB)
    (rr : RelRow) : Except UndoErr DB :=
  match rr.parentId with
  | none => .ok db
  | some pid =>
    if db.idExists m pid then
      saveRow db relName ⟨rr.data.id, some pid, rr.data.attrs⟩
    else .ok db

def restoreRelRows (m relName : ModelName) :
    DB → List RelRow → Except UndoErr DB
  | db, [] => .ok db
  | db, rr :: t =>
    match restoreRelRow m relName db rr with
    | .error e => .error e
    | .ok d => restoreRelRows m relName d t

def restoreRelatedByParent (m : ModelName) :
    DB → List (ModelName × RelatedGroup) → Except UndoErr DB
  | db, [] => .ok db
  | db, g :: t =>
    match restoreRelRows m g.1 db g.2.instances with
    | .error e => .error e
    | .ok d => restoreRelatedByParent m d t

/-- The fresh-id re-insertion of related child rows in the single-record
restore path: each child row's original id was popped and discarded, so the
child is saved under a fresh id, linked to the restored main instance. -/
def freshRelated (mainId : Nat) :
    DB → List (ModelName × RelatedGroup) → DB
  | db, [] => db
  | db, g :: t =>
    freshRelated mainId
      (g.2.instances.foldl
        (fun d2 rr => (insertFresh d2 g.1 (some mainId) rr.data.attrs).1) db)
      t

/-- The single-record restore path (lines 671-693): the main instance is
rebuilt from its serialized fields (again without any foreign-key column) and
saved with its original id — or with a fresh id when the snapshot carried no
`data` — and each related child row is re-inserted under a fresh id.  Returns
the value the loop variable `instance_id` ends up holding, which the
manual-example clearing step later reads. -/
def restoreSingle (db : DB) (m : ModelName) (data : Option SRow)
    (related : List (ModelName × RelatedGroup)) :
    Except UndoErr (DB × Option Nat) :=
  match data with
  | some sr =>
    match saveRow db m ⟨sr.id, none, sr.attrs⟩ with
    | .error e => .error e
    | .ok d => .ok (freshRelated sr.id d related, some sr.id)
  | none =>
    if requiresParent m then .error .notNullViolation
    else
      let p := insertFresh db m none []
      .ok (freshRelated p.2 p.1 related, none)

/-- Restoring one manually tracked FrenchExample (lines 707-740): the parent
FrenchWord is looked up and, when missing, recreated as a minimal stub row
carrying only the original id with every other field at its default; the
example is then saved with its original id and linked to the word. -/
def restoreManualOne (db : DB) (me : ManualExample) : DB :=
  let db1 :=
    if db.idExists .FrenchWord me.french_word_id then db
    else upsertRow db .FrenchWord ⟨me.french_word_id, none, []⟩
  upsertRow db1 .FrenchExample ⟨me.data.id, some me.french_word_id, me.data.attrs⟩

/-- The duplicate-prevention clearing (lines 700-705), keyed off the loop
variable `instance_id`: reading it unassigned raises `NameError`; a `None`
value clears nothing; otherwise every existing FrenchExample of that word is
deleted first. -/
def clearStep (db : DB) (model : ModelName) (mode : DelMode)
    (instVar : Option (Option Nat)) : Except UndoErr DB :=
  if model == .FrenchWord && !(mode == .all) && !(mode == .range) then
    match instVar with
    | none => .error .nameError
    | some none => .ok db
    | some (some w) =>
      .ok { db with rows := db.rows.filter (fun e =>
            !(e.1 == .FrenchExample && e.2.parentId == some w)) }
  else .ok db

def restoreManual (db : DB) (model : ModelName) (mode : DelMode)
    (instVar : Option (Option Nat)) (manual : List ManualExample) :
    Except UndoErr (DB × Nat) :=
  if manual.isEmpty then .ok (db, 0)
  else
    match clearStep db model mode instVar with
    | .error e => .error e
    | .ok db1 => .ok (manual.foldl restoreManualOne db1, manual.length)

/-- The value the loop variable `instance_id` holds after the bulk restore
loops: unassigned when the instance list was empty, otherwise the last
restored instance's popped id. -/
def lastInstanceVar (insts : List SRow) : Option (Option Nat) :=
  match insts.getLast? with
  | none => none
  | some sr => some (some sr.id)

/-- The mode-dispatched main restore of `undo_deletion`: the by-field path
and the range/all path both restore the serialized instances and then the
related rows by recorded parent id (they differ in the source only in how the
serialized id is popped, which has the same effect); the single path restores
the one record with its children re-inserted under fresh ids.  Returns the
database, the count contribution, and the final value of the loop variable
`instance_id`. -/
def mainRestore (db1 : DB) (snap : Snapshot) :
    Except UndoErr (DB × Nat × Option (Option Nat)) :=
  match snap.mode with
  | .byField | .range | .all =>
    match restoreInstances db1 snap.model snap.instances with
    | .error e => .error e
    | .ok d =>
      match restoreRelatedByParent snap.model d snap.related_data with
      | .error e => .error e
      | .ok d2 =>
        .ok (d2, snap.instances.length, lastInstanceVar snap.instances)
  | .single =>
    match restoreSingle db1 snap.model snap.data snap.related_data with
    | .error e => .error e
    | .ok (d, popped) => .ok (d, 1, some popped)

/-- The body of `undo_deletion`'s transaction: parent restore, then the
mode-specific main and related restore, then the manual-example restore.
Returns the restored database and the reported restored count (the count
counts the parent restore, the primary instances and the manually restored
examples — related child rows are not counted). -/
def undoRun (db : DB) (snap : Snapshot) : Except UndoErr (DB × Nat) :=
  match restoreParentStep db snap with
  | .error e => .error e
  | .ok (db1, c1) =>
    match mainRestore db1 snap with
    | .error e => .error e
    | .ok (db2, c2, instVar) =>
      match restoreManual db2 snap.model snap.mode instVar
          snap.manually_deleted_examples with
      | .error e => .error e
      | .ok (db3, ex) => .ok (db3, c1 + c2 + ex)

/-- `DataService.undo_deletion(operation_id)`: looks the snapshot up in the
cache (absence — expiry or unknown id — is a failure), runs the restore inside
one atomic transaction, and deletes the cache entry only on success; any error
rolls the whole transaction back, leaving the database and the cache exactly
as they were. -/
def undo_deletion (opId : String) (s : OpState) : Except String Nat × OpState :=
  match cacheGet s.cache ("deletion_" ++ opId) with
  | none =>
    (.error "No data found for the specified operation or the undo period has expired.", s)
  | some snap =>
    match undoRun s.db snap with
    | .error _ => (.error "error restoring data for operation", s)
    | .ok (db1, n) => (.ok n, ⟨db1, cacheDelete s.cache ("deletion_" ++ opId)⟩)

/-- Serializability of a field list (every value encodable by the
`DjangoJSONEncoder`). -/
def attrsSerializable (l : List (String × Value)) : Bool :=
  l.all (fun a => a.2.serializable)

/-- The shape a delete operation's Python return value reports to the caller:
`delete_by_id` returns the 2-tuple `(success, operation_id)` — an operation id
but no affected count — while the other three operations return the 3-tuple
`(success, operation_id, count)`. -/
inductive ReportedOutcome where
  | failure
  | okNoCount (opId : String)
  | okWithCount (opId : String) (count : Nat)
  deriving DecidableEq, Repr

def reportOfDeleteById (r : Except DelErr String) : ReportedOutcome :=
  match r with
  | .ok opId => .okNoCount opId
  | .error _ => .failure

def reportOfCountingDelete (r : Except DelErr (String × Nat)) : ReportedOutcome :=
  match r with
  | .ok (opId, n) => .okWithCount opId n
  | .error _ => .failure

/-- Whether a reported outcome carries both an operation id and an affected
count, as the specification requires of every delete operation. -/
def reportsIdAndCount (r : ReportedOutcome) : Prop :=
  ∃ o n, r = ReportedOutcome.okWithCount o n

/-- Well-formedness of the database: no two rows of the same model share an
id, and every id is below the auto-increment counter (AUTOINCREMENT primary
keys never hand out an id at or below one already used). -/
def wfDB (db : DB) : Prop :=
  db.rows.Pairwise (fun e1 e2 => e1.1 = e2.1 → e1.2.id ≠ e2.2.id) ∧
  ∀ e ∈ db.rows, e.2.id < db.nextId

/-- The number of rows of model `m` carrying id `i`. -/
def countId (db : DB) (m : ModelName) (i : Nat) : Nat :=
  ((db.table m).filter (fun r => r.id == i)).length

/-- Executable check of the pairwise id-uniqueness half of `wfDB`. -/
def pairwiseIdsOk : List (ModelName × Row) → Bool
  | [] => true
  | e :: t =>
    t.all (fun x => !(e.1 == x.1) || !(e.2.id == x.2.id)) && pairwiseIdsOk t

/-- Executable check of `wfDB`, for concrete witnesses. -/
def wfCheck (db : DB) : Bool :=
  pairwiseIdsOk db.rows && db.rows.all (fun e => e.2.id < db.nextId)

/-- Schema conformance of the stored rows: a model without a foreign-key
column stores no parent reference, and a model whose foreign key is NOT NULL
always stores one. -/
def schemaOk (db : DB) : Prop :=
  ∀ e ∈ db.rows, (requiresParent e.1 = false → e.2.parentId = none) ∧
    (requiresParent e.1 = true → e.2.parentId.isSome = true)

/-- Executable check of `schemaOk`, for concrete witnesses. -/
def schemaCheck (db : DB) : Bool :=
  db.rows.all (fun e =>
    (!requiresParent e.1 || e.2.parentId.isSome)
      && (requiresParent e.1 || e.2.parentId == none))

/- Concrete fixtures used by counterexamples and witnesses. -/

def sampleWordAttrs : List (String × Value) := [("noun_form", .str "chat")]

def sampleExampleAttrs : List (String × Value) :=
  [("example_text", .str "Le chat dort.")]

/-- A FrenchWord (id 1) whose only FrenchExample is id 2. -/
def dbOrphanFr : DB :=
  ⟨[(.FrenchWord, ⟨1, none, sampleWordAttrs⟩),
    (.FrenchExample, ⟨2, some 1, sampleExampleAttrs⟩)], 3⟩

/-- A SpanishWord (id 1) whose only SpanishExample is id 2. -/
def dbSingleSpanish : DB :=
  ⟨[(.SpanishWord, ⟨1, none, sampleWordAttrs⟩),
    (.SpanishExample, ⟨2, some 1, sampleExampleAttrs⟩)], 3⟩

/-- Two SpanishWords (ids 1, 2), one SpanishExample each (ids 3, 4), with
arbitrary field values. -/
def dbRangePair (aw1 aw2 ae1 ae2 : List (String × Value)) : DB :=
  ⟨[(.SpanishWord, ⟨1, none, aw1⟩), (.SpanishWord, ⟨2, none, aw2⟩),
    (.SpanishExample, ⟨3, some 1, ae1⟩), (.SpanishExample, ⟨4, some 2, ae2⟩)],
   5⟩

/-- A single SpanishWord with id 4. -/
def dbOneWordId4 : DB := ⟨[(.SpanishWord, ⟨4, none, sampleWordAttrs⟩)], 5⟩

/-- Two SpanishExamples (ids 2, 3) referencing the nonexistent SpanishWord
id 9. -/
def dbDanglingSpanish : DB :=
  ⟨[(.SpanishExample, ⟨2, some 9, sampleExampleAttrs⟩),
    (.SpanishExample, ⟨3, some 9, sampleExampleAttrs⟩)], 4⟩

/-- A FrenchWord (id 1) with three FrenchExamples (ids 2, 3, 4). -/
def dbWordThreeExamples : DB :=
  ⟨[(.FrenchWord, ⟨1, none, sampleWordAttrs⟩),
    (.FrenchExample, ⟨2, some 1, sampleExampleAttrs⟩),
    (.FrenchExample, ⟨3, some 1, sampleExampleAttrs⟩),
    (.FrenchExample, ⟨4, some 1, sampleExampleAttrs⟩)], 5⟩

/-- A range-mode SpanishWord snapshot whose related SpanishExample row is
annotated with a `_parent_id` (99) that resolves to no row: the shape a
range deletion produces, as left behind when the referenced word was removed
again by an interleaved operation before the undo ran. -/
def snapDanglingRelated : Snapshot :=
  ⟨.SpanishWord, .range, none, [⟨1, sampleWordAttrs⟩],
   [(.SpanishExample, ⟨some "spanish_word", [⟨⟨2, sampleExampleAttrs⟩, some 99⟩]⟩)],
   [], none, []⟩

/-- A FrenchWord range-mode snapshot whose only content is one manually
tracked FrenchExample (id `e`, fields `attrsE`) of FrenchWord `w`. -/
def manualOnlySnapshot (e : Nat) (attrsE : List (String × Value)) (w : Nat) :
    Snapshot :=
  ⟨.FrenchWord, .range, none, [], [], [], none, [⟨⟨e, attrsE⟩, w⟩]⟩

/-- A FrenchWord (id 1) carrying a value the snapshot encoder cannot
serialize. -/
def dbUnserializable : DB :=
  ⟨[(.FrenchWord, ⟨1, none, [("noun_form", .unserializable "io_object")]⟩)], 2⟩

/-
  Theorems.  General-purpose lemmas about the store operations come first,
  then one theorem per claim (with its witness or counterexample).
-/

theorem cacheGet_cacheSet_self (c : Cache) (k : String) (v : Snapshot) :
    cacheGet (cacheSet c k v) k = some v := by
  simp [cacheGet, cacheSet]

theorem mem_table_iff {db : DB} {m : ModelName} {r : Row} :
    r ∈ db.table m ↔ (m, r) ∈ db.rows := by
  constructor
  · intro h
    rcases List.mem_map.mp h with ⟨e, he, rfl⟩
    rcases List.mem_filter.mp he with ⟨hmem, hcond⟩
    have h1 : e.1 = m := by simpa using hcond
    rw [← h1]
    exact hmem
  · intro h
    exact List.mem_map.mpr ⟨(m, r), List.mem_filter.mpr ⟨h, by simp⟩, rfl⟩

theorem idExists_eq_true_iff {db : DB} {m : ModelName} {i : Nat} :
    db.idExists m i = true ↔ ∃ r ∈ db.table m, r.id = i := by
  simp [DB.idExists]

theorem idExists_eq_false_iff {db : DB} {m : ModelName} {i : Nat} :
    db.idExists m i = false ↔ ∀ r ∈ db.table m, r.id ≠ i := by
  rw [← Bool.not_eq_true, idExists_eq_true_iff]
  push_neg
  rfl

theorem filter_cons_true {α : Type} (p : α → Bool) (a : α) (l : List α)
    (h : p a = true) : (a :: l).filter p = a :: l.filter p := by
  simp [List.filter_cons, h]

theorem filter_cons_false {α : Type} (p : α → Bool) (a : α) (l : List α)
    (h : p a = false) : (a :: l).filter p = l.filter p := by
  simp [List.filter_cons, h]

theorem table_filter_rows (rows : List (ModelName × Row)) (n : Nat)
    (p : ModelName × Row → Bool) (m : ModelName) :
    (DB.mk (rows.filter p) n).table m
      = ((DB.mk rows n).table m).filter (fun r => p (m, r)) := by
  unfold DB.table
  simp only
  induction rows with
  | nil => rfl
  | cons e t ih =>
    rcases e with ⟨me, re⟩
    by_cases hp : p (me, re) = true
    · rw [filter_cons_true _ _ _ hp]
      by_cases hm : me = m
      · subst hm
        rw [filter_cons_true (fun (e : ModelName × Row) => e.1 == me) _ _ (by simp),
            filter_cons_true (fun (e : ModelName × Row) => e.1 == me) _ _ (by simp),
            List.map_cons, List.map_cons,
            filter_cons_true (fun (r : Row) => p (me, r)) _ _ hp, ih]
      · have hm2 : ((me, re).1 == m) = false := by simpa using hm
        rw [filter_cons_false (fun (e : ModelName × Row) => e.1 == m) _ _ hm2,
            filter_cons_false (fun (e : ModelName × Row) => e.1 == m) _ _ hm2, ih]
    · have hp2 : p (me, re) = false := by rwa [Bool.not_eq_true] at hp
      rw [filter_cons_false _ _ _ hp2]
      by_cases hm : me = m
      · subst hm
        rw [filter_cons_true (fun (e : ModelName × Row) => e.1 == me) _ _ (by simp),
            List.map_cons,
            filter_cons_false (fun (r : Row) => p (me, r)) _ _ hp2, ih]
      · have hm2 : ((me, re).1 == m) = false := by simpa using hm
        rw [filter_cons_false (fun (e : ModelName × Row) => e.1 == m) _ _ hm2, ih]

theorem table_cascadeDelete (db : DB) (target : ModelName) (ids : List Nat)
    (m : ModelName) :
    (cascadeDelete db target ids).table m
      = (db.table m).filter (fun r => !isCascadeVictim target ids (m, r)) := by
  unfold cascadeDelete
  exact table_filter_rows db.rows db.nextId _ m

theorem find?_append_of_forall_false {α : Type} (p : α → Bool) :
    ∀ l1 l2 : List α, (∀ x ∈ l1, p x = false) →
      (l1 ++ l2).find? p = l2.find? p := by
  intro l1
  induction l1 with
  | nil => intro l2 _; rfl
  | cons a t ih =>
    intro l2 hall
    rw [List.cons_append]
    rw [List.find?_cons_of_neg]
    · exact ih l2 (fun x hx => hall x (List.mem_cons_of_mem _ hx))
    · simp [hall a (List.mem_cons_self _ _)]

theorem filter_model_map_replace (rows : List (ModelName × Row))
    (m m' : ModelName) (r : Row) (h : ¬ m = m') :
    (rows.map (fun e => if e.1 == m && e.2.id == r.id then (m, r) else e)).filter
        (fun e => e.1 == m')
      = rows.filter (fun e => e.1 == m') := by
  induction rows with
  | nil => rfl
  | cons e t ih =>
    rw [List.map_cons]
    by_cases he : (e.1 == m && e.2.id == r.id) = true
    · have h1 : e.1 = m := by
        have h2 := (Bool.and_eq_true _ _).mp he
        simpa using h2.1
      rw [if_pos he]
      have hm1 : (((m, r) : ModelName × Row).1 == m') = false := by
        simpa using h
      have hm2 : (e.1 == m') = false := by
        rw [h1]; simpa using h
      rw [filter_cons_false (fun (e : ModelName × Row) => e.1 == m') _ _ hm1,
          filter_cons_false (fun (e : ModelName × Row) => e.1 == m') _ _ hm2, ih]
    · rw [if_neg he]
      by_cases hm : (e.1 == m') = true
      · rw [filter_cons_true (fun (e : ModelName × Row) => e.1 == m') _ _ hm,
            filter_cons_true (fun (e : ModelName × Row) => e.1 == m') _ _ hm, ih]
      · have hm2 : (e.1 == m') = false := by rwa [Bool.not_eq_true] at hm
        rw [filter_cons_false (fun (e : ModelName × Row) => e.1 == m') _ _ hm2,
            filter_cons_false (fun (e : ModelName × Row) => e.1 == m') _ _ hm2, ih]

theorem table_upsertRow_ne (db : DB) (m m' : ModelName) (r : Row)
    (h : ¬ m = m') :
    (upsertRow db m r).table m' = db.table m' := by
  rcases db with ⟨rows, n⟩
  unfold upsertRow
  by_cases hex : DB.idExists ⟨rows, n⟩ m r.id = true
  · rw [if_pos hex]
    unfold DB.table
    exact congrArg _ (filter_model_map_replace rows m m' r h)
  · rw [if_neg hex]
    unfold DB.table
    have hm1 : (((m, r) : ModelName × Row).1 == m') = false := by simpa using h
    show ((rows ++ [(m, r)]).filter (fun e => e.1 == m')).map (fun e => e.2)
        = (rows.filter (fun e => e.1 == m')).map (fun e => e.2)
    rw [List.filter_append, filter_cons_false (fun (e : ModelName × Row) => e.1 == m') _ _ hm1]
    simp

theorem mem_table_upsertRow_self (db : DB) (m : ModelName) (r : Row) :
    r ∈ (upsertRow db m r).table m := by
  rcases db with ⟨rows, n⟩
  unfold upsertRow
  by_cases hex : DB.idExists ⟨rows, n⟩ m r.id = true
  · rw [if_pos hex]
    rw [mem_table_iff]
    rcases idExists_eq_true_iff.mp hex with ⟨x, hx, hid⟩
    have hmem : (m, x) ∈ rows := mem_table_iff.mp hx
    refine List.mem_map.mpr ⟨(m, x), hmem, ?_⟩
    have hc : (((m, x) : ModelName × Row).1 == m
        && ((m, x) : ModelName × Row).2.id == r.id) = true := by simp [hid]
    rw [if_pos hc]
  · rw [if_neg hex]
    rw [mem_table_iff]
    show (m, r) ∈ rows ++ [(m, r)]
    exact List.mem_append_right _ (by simp)

theorem getById_upsertRow_insert (db : DB) (m : ModelName) (r : Row)
    (h : db.idExists m r.id = false) :
    (upsertRow db m r).getById m r.id = some r := by
  rcases db with ⟨rows, n⟩
  have hex : ¬ DB.idExists ⟨rows, n⟩ m r.id = true := by
    rw [h]; exact Bool.false_ne_true
  unfold upsertRow
  rw [if_neg hex]
  unfold DB.getById
  have htab : (DB.mk (rows ++ [(m, r)]) (max n (r.id + 1))).table m
      = (DB.mk rows n).table m ++ [r] := by
    unfold DB.table
    rw [List.filter_append,
        filter_cons_true (fun (e : ModelName × Row) => e.1 == m) _ _ (by simp), List.filter_nil,
        List.map_append]
    rfl
  rw [htab]
  rw [find?_append_of_forall_false _ _ _ ?hall]
  · simp [List.find?]
  · intro x hx
    have hne := idExists_eq_false_iff.mp h x hx
    simpa using hne

theorem isEmpty_eq_false_of_ne_nil {α : Type} {l : List α} (h : l ≠ []) :
    l.isEmpty = false := by
  cases l with
  | nil => exact absurd rfl h
  | cons a t => rfl

theorem nodup_table_ids {db : DB} (h : wfDB db) (m : ModelName) :
    ((db.table m).map (fun r => r.id)).Nodup := by
  rcases h with ⟨hp, _⟩
  have h1 : (db.rows.filter (fun e => e.1 == m)).Pairwise
      (fun e1 e2 => e1.1 = e2.1 → e1.2.id ≠ e2.2.id) :=
    hp.sublist (List.filter_sublist _)
  have h2 : (db.rows.filter (fun e => e.1 == m)).Pairwise
      (fun e1 e2 => e1.2.id ≠ e2.2.id) := by
    refine List.Pairwise.imp_of_mem ?_ h1
    intro e1 e2 h1m h2m hR
    have hm1 : e1.1 = m := by simpa using (List.mem_filter.mp h1m).2
    have hm2 : e2.1 = m := by simpa using (List.mem_filter.mp h2m).2
    exact hR (hm1.trans hm2.symm)
  unfold DB.table
  rw [List.map_map]
  exact List.pairwise_map.mpr h2

theorem table_id_inj {db : DB} (h : wfDB db) {m : ModelName} {x y : Row}
    (hx : x ∈ db.table m) (hy : y ∈ db.table m) (hid : x.id = y.id) : x = y :=
  List.inj_on_of_nodup_map (nodup_table_ids h m) hx hy hid

theorem nodup_filter_id_length {α : Type} (f : α → Nat) (i : Nat) :
    ∀ l : List α, (l.map f).Nodup → (l.filter (fun x => f x == i)).length ≤ 1 := by
  intro l
  induction l with
  | nil => intro _; simp
  | cons a t ih =>
    intro hnd
    rw [List.map_cons, List.nodup_cons] at hnd
    by_cases hc : (f a == i) = true
    · rw [filter_cons_true (fun x => f x == i) a t hc]
      have hi : f a = i := beq_iff_eq.mp hc
      have hnil : t.filter (fun x => f x == i) = [] := by
        refine List.filter_eq_nil_iff.mpr ?_
        intro x hx hpx
        have hfx : f x = i := beq_iff_eq.mp (by simpa using hpx)
        exact hnd.1 (List.mem_map.mpr ⟨x, hx, hfx.trans hi.symm⟩)
      rw [hnil]
      simp
    · rw [filter_cons_false (fun x => f x == i) a t
        (by rwa [Bool.not_eq_true] at hc)]
      exact ih hnd.2

theorem countId_le_one {db : DB} (h : wfDB db) (m : ModelName) (i : Nat) :
    countId db m i ≤ 1 := by
  unfold countId
  exact nodup_filter_id_length (fun r => r.id) i (db.table m)
    (nodup_table_ids h m)

theorem replaceEntry_fst (m : ModelName) (r : Row) (e : ModelName × Row) :
    (if e.1 == m && e.2.id == r.id then (m, r) else e).1 = e.1 := by
  by_cases hc : (e.1 == m && e.2.id == r.id) = true
  · rw [if_pos hc]
    exact (beq_iff_eq.mp ((Bool.and_eq_true _ _).mp hc).1).symm
  · rw [if_neg hc]

theorem replaceEntry_id (m : ModelName) (r : Row) (e : ModelName × Row) :
    (if e.1 == m && e.2.id == r.id then (m, r) else e).2.id = e.2.id := by
  by_cases hc : (e.1 == m && e.2.id == r.id) = true
  · rw [if_pos hc]
    exact (beq_iff_eq.mp ((Bool.and_eq_true _ _).mp hc).2).symm
  · rw [if_neg hc]

theorem wf_upsertRow {db : DB} (h : wfDB db) (m : ModelName) (r : Row) :
    wfDB (upsertRow db m r) := by
  rcases h with ⟨hp, hb⟩
  unfold upsertRow
  by_cases hex : db.idExists m r.id = true
  · rw [if_pos hex]
    constructor
    · refine List.pairwise_map.mpr (hp.imp ?_)
      intro e1 e2 hR hfst
      rw [replaceEntry_id, replaceEntry_id]
      exact hR (by rw [← replaceEntry_fst m r e1, ← replaceEntry_fst m r e2,
        hfst])
    · intro e he
      rcases List.mem_map.mp he with ⟨e0, he0, rfl⟩
      rw [replaceEntry_id]
      exact hb e0 he0
  · rw [if_neg hex]
    have hnex : db.idExists m r.id = false := by
      rwa [Bool.not_eq_true] at hex
    constructor
    · rw [List.pairwise_append]
      refine ⟨hp, List.pairwise_singleton _ _, ?_⟩
      intro e he e' he'
      rcases List.mem_singleton.mp he' with rfl
      intro hfst
      rcases e with ⟨em, er⟩
      have hem : em = m := by simpa using hfst
      subst hem
      have hmem : er ∈ db.table em := mem_table_iff.mpr he
      exact idExists_eq_false_iff.mp hnex er hmem
    · intro e he
      rcases List.mem_append.mp he with h1 | h1
      · exact lt_of_lt_of_le (hb e h1) (le_max_left _ _)
      · rcases List.mem_singleton.mp h1 with rfl
        exact lt_of_lt_of_le (Nat.lt_succ_self _) (le_max_right _ _)

theorem wf_insertFresh {db : DB} (h : wfDB db) (m : ModelName)
    (pid : Option Nat) (attrs : List (String × Value)) :
    wfDB (insertFresh db m pid attrs).1 := by
  rcases h with ⟨hp, hb⟩
  unfold insertFresh
  constructor
  · rw [List.pairwise_append]
    refine ⟨hp, List.pairwise_singleton _ _, ?_⟩
    intro e he e' he'
    rcases List.mem_singleton.mp he' with rfl
    intro _
    exact Nat.ne_of_lt (hb e he)
  · intro e he
    rcases List.mem_append.mp he with h1 | h1
    · exact Nat.lt_succ_of_lt (hb e h1)
    · rcases List.mem_singleton.mp h1 with rfl
      exact Nat.lt_succ_self _

theorem wf_filter_rows {db : DB} (h : wfDB db) (p : ModelName × Row → Bool) :
    wfDB ⟨db.rows.filter p, db.nextId⟩ := by
  rcases h with ⟨hp, hb⟩
  exact ⟨hp.sublist (List.filter_sublist _),
    fun e he => hb e (List.mem_of_mem_filter he)⟩

theorem saveRow_ok_wf {db d : DB} {m : ModelName} {r : Row} (h : wfDB db)
    (he : saveRow db m r = .ok d) : wfDB d := by
  unfold saveRow at he
  by_cases hc : (requiresParent m && r.parentId.isNone) = true
  · rw [if_pos hc] at he
    exact Except.noConfusion he
  · rw [if_neg hc] at he
    injection he with h2
    rw [← h2]
    exact wf_upsertRow h m r

theorem wf_restoreInstances {m : ModelName} :
    ∀ (insts : List SRow) (db db' : DB), wfDB db →
      restoreInstances db m insts = .ok db' → wfDB db' := by
  intro insts
  induction insts with
  | nil =>
    intro db db' h he
    unfold restoreInstances at he
    injection he with h2
    rwa [← h2]
  | cons sr t ih =>
    intro db db' h he
    unfold restoreInstances at he
    cases hs : saveRow db m ⟨sr.id, none, sr.attrs⟩ with
    | error e => simp only [hs] at he; exact Except.noConfusion he
    | ok d => simp only [hs] at he; exact ih d db' (saveRow_ok_wf h hs) he

theorem restoreRelRow_ok_wf {m relName : ModelName} {db d : DB} {rr : RelRow}
    (h : wfDB db) (he : restoreRelRow m relName db rr = .ok d) : wfDB d := by
  unfold restoreRelRow at he
  cases hrp : rr.parentId with
  | none =>
    simp only [hrp] at he
    injection he with h2
    rwa [← h2]
  | some pid =>
    simp only [hrp] at he
    by_cases hex : db.idExists m pid = true
    · rw [if_pos hex] at he
      exact saveRow_ok_wf h he
    · rw [if_neg hex] at he
      injection he with h2
      rwa [← h2]

theorem wf_restoreRelRows {m relName : ModelName} :
    ∀ (l : List RelRow) (db db' : DB), wfDB db →
      restoreRelRows m relName db l = .ok db' → wfDB db' := by
  intro l
  induction l with
  | nil =>
    intro db db' h he
    unfold restoreRelRows at he
    injection he with h2
    rwa [← h2]
  | cons rr t ih =>
    intro db db' h he
    unfold restoreRelRows at he
    cases hs : restoreRelRow m relName db rr with
    | error e => simp only [hs] at he; exact Except.noConfusion he
    | ok d => simp only [hs] at he; exact ih d db' (restoreRelRow_ok_wf h hs) he

theorem wf_restoreRelatedByParent {m : ModelName} :
    ∀ (related : List (ModelName × RelatedGroup)) (db db' : DB), wfDB db →
      restoreRelatedByParent m db related = .ok db' → wfDB db' := by
  intro related
  induction related with
  | nil =>
    intro db db' h he
    unfold restoreRelatedByParent at he
    injection he with h2
    rwa [← h2]
  | cons g t ih =>
    intro db db' h he
    unfold restoreRelatedByParent at he
    cases hs : restoreRelRows m g.1 db g.2.instances with
    | error e => simp only [hs] at he; exact Except.noConfusion he
    | ok d =>
      simp only [hs] at he
      exact ih d db' (wf_restoreRelRows g.2.instances db d h hs) he

theorem wf_foldl_freshInner (relName : ModelName) (mainId : Nat) :
    ∀ (l : List RelRow) (db : DB), wfDB db →
      wfDB (l.foldl
        (fun d2 rr => (insertFresh d2 relName (some mainId) rr.data.attrs).1)
        db) := by
  intro l
  induction l with
  | nil => intro db h; exact h
  | cons rr t ih =>
    intro db h
    rw [List.foldl_cons]
    exact ih _ (wf_insertFresh h relName (some mainId) rr.data.attrs)

theorem wf_freshRelated (mainId : Nat) :
    ∀ (related : List (ModelName × RelatedGroup)) (db : DB), wfDB db →
      wfDB (freshRelated mainId db related) := by
  intro related
  induction related with
  | nil => intro db h; exact h
  | cons g t ih =>
    intro db h
    unfold freshRelated
    exact ih _ (wf_foldl_freshInner g.1 mainId g.2.instances db h)

theorem wf_restoreSingle {m : ModelName} {data : Option SRow}
    {related : List (ModelName × RelatedGroup)} {db db' : DB}
    {popped : Option Nat} (h : wfDB db)
    (he : restoreSingle db m data related = .ok (db', popped)) : wfDB db' := by
  unfold restoreSingle at he
  cases hd : data with
  | some sr =>
    simp only [hd] at he
    cases hs : saveRow db m ⟨sr.id, none, sr.attrs⟩ with
    | error e => simp only [hs] at he; exact Except.noConfusion he
    | ok d =>
      simp only [hs] at he
      injection he with h2
      have h3 := congrArg Prod.fst h2
      simp only at h3
      rw [← h3]
      exact wf_freshRelated sr.id related d (saveRow_ok_wf h hs)
  | none =>
    simp only [hd] at he
    by_cases hrp : requiresParent m = true
    · rw [if_pos hrp] at he
      exact Except.noConfusion he
    · rw [if_neg hrp] at he
      injection he with h2
      have h3 := congrArg Prod.fst h2
      simp only at h3
      rw [← h3]
      exact wf_freshRelated _ related _ (wf_insertFresh h m none [])

theorem wf_restoreManualOne {db : DB} (h : wfDB db) (me : ManualExample) :
    wfDB (restoreManualOne db me) := by
  unfold restoreManualOne
  by_cases hex : db.idExists .FrenchWord me.french_word_id = true
  · rw [if_pos hex]
    exact wf_upsertRow h _ _
  · rw [if_neg hex]
    exact wf_upsertRow (wf_upsertRow h _ _) _ _

theorem wf_foldl_manual :
    ∀ (l : List ManualExample) (db : DB), wfDB db →
      wfDB (l.foldl restoreManualOne db) := by
  intro l
  induction l with
  | nil => intro db h; exact h
  | cons x t ih =>
    intro db h
    rw [List.foldl_cons]
    exact ih _ (wf_restoreManualOne h x)

theorem clearStep_ok_wf {db d : DB} {model : ModelName} {mode : DelMode}
    {instVar : Option (Option Nat)} (h : wfDB db)
    (he : clearStep db model mode instVar = .ok d) : wfDB d := by
  unfold clearStep at he
  by_cases hc : (model == ModelName.FrenchWord && !(mode == DelMode.all)
      && !(mode == DelMode.range)) = true
  · rw [if_pos hc] at he
    cases hv : instVar with
    | none => simp only [hv] at he; exact Except.noConfusion he
    | some v =>
      cases hv2 : v with
      | none =>
        simp only [hv, hv2] at he
        injection he with h2
        rwa [← h2]
      | some w =>
        simp only [hv, hv2] at he
        injection he with h2
        rw [← h2]
        exact wf_filter_rows h _
  · rw [if_neg hc] at he
    injection he with h2
    rwa [← h2]

theorem wf_restoreManual {db db' : DB} {model : ModelName} {mode : DelMode}
    {instVar : Option (Option Nat)} {manual : List ManualExample} {n : Nat}
    (h : wfDB db)
    (he : restoreManual db model mode instVar manual = .ok (db', n)) :
    wfDB db' := by
  unfold restoreManual at he
  by_cases hm : manual.isEmpty = true
  · rw [if_pos hm] at he
    injection he with h2
    have h3 := congrArg Prod.fst h2
    simp only at h3
    rwa [← h3]
  · rw [if_neg hm] at he
    cases hc : clearStep db model mode instVar with
    | error e => simp only [hc] at he; exact Except.noConfusion he
    | ok d =>
      simp only [hc] at he
      injection he with h2
      have h3 := congrArg Prod.fst h2
      simp only at h3
      rw [← h3]
      exact wf_foldl_manual manual d (clearStep_ok_wf h hc)

theorem wf_restoreParentStep {db db' : DB} {snap : Snapshot} {n : Nat}
    (h : wfDB db) (he : restoreParentStep db snap = .ok (db', n)) :
    wfDB db' := by
  unfold restoreParentStep at he
  cases hptd : snap.parent_to_delete with
  | none =>
    simp only [hptd] at he
    injection he with h2
    have h3 := congrArg Prod.fst h2
    simp only at h3
    rwa [← h3]
  | some p =>
    simp only [hptd] at he
    by_cases hex : db.idExists p.1 p.2.id = true
    · rw [if_pos hex] at he
      injection he with h2
      have h3 := congrArg Prod.fst h2
      simp only at h3
      rwa [← h3]
    · rw [if_neg hex] at he
      cases hs : saveRow db p.1 ⟨p.2.id, none, p.2.attrs⟩ with
      | error e => simp only [hs] at he; exact Except.noConfusion he
      | ok d =>
        simp only [hs] at he
        injection he with h2
        have h3 := congrArg Prod.fst h2
        simp only at h3
        rw [← h3]
        exact saveRow_ok_wf h hs

theorem wf_mainRestore {db db' : DB} {snap : Snapshot} {n : Nat}
    {instVar : Option (Option Nat)} (h : wfDB db)
    (he : mainRestore db snap = .ok (db', n, instVar)) : wfDB db' := by
  unfold mainRestore at he
  cases hmode : snap.mode with
  | single =>
    simp only [hmode] at he
    cases hs : restoreSingle db snap.model snap.data snap.related_data with
    | error e => simp only [hs] at he; exact Except.noConfusion he
    | ok p =>
      simp only [hs] at he
      injection he with h2
      have h3 := congrArg Prod.fst h2
      simp only at h3
      rw [← h3]
      exact wf_restoreSingle h (by rw [hs])
  | byField =>
    simp only [hmode] at he
    cases hs : restoreInstances db snap.model snap.instances with
    | error e => simp only [hs] at he; exact Except.noConfusion he
    | ok d =>
      simp only [hs] at he
      cases hs2 : restoreRelatedByParent snap.model d snap.related_data with
      | error e => simp only [hs2] at he; exact Except.noConfusion he
      | ok d2 =>
        simp only [hs2] at he
        injection he with h2
        have h3 := congrArg Prod.fst h2
        simp only at h3
        rw [← h3]
        exact wf_restoreRelatedByParent snap.related_data d d2
          (wf_restoreInstances snap.instances db d h hs) hs2
  | range =>
    simp only [hmode] at he
    cases hs : restoreInstances db snap.model snap.instances with
    | error e => simp only [hs] at he; exact Except.noConfusion he
    | ok d =>
      simp only [hs] at he
      cases hs2 : restoreRelatedByParent snap.model d snap.related_data with
      | error e => simp only [hs2] at he; exact Except.noConfusion he
      | ok d2 =>
        simp only [hs2] at he
        injection he with h2
        have h3 := congrArg Prod.fst h2
        simp only at h3
        rw [← h3]
        exact wf_restoreRelatedByParent snap.related_data d d2
          (wf_restoreInstances snap.instances db d h hs) hs2
  | all =>
    simp only [hmode] at he
    cases hs : restoreInstances db snap.model snap.instances with
    | error e => simp only [hs] at he; exact Except.noConfusion he
    | ok d =>
      simp only [hs] at he
      cases hs2 : restoreRelatedByParent snap.model d snap.related_data with
      | error e => simp only [hs2] at he; exact Except.noConfusion he
      | ok d2 =>
        simp only [hs2] at he
        injection he with h2
        have h3 := congrArg Prod.fst h2
        simp only at h3
        rw [← h3]
        exact wf_restoreRelatedByParent snap.related_data d d2
          (wf_restoreInstances snap.instances db d h hs) hs2

theorem wf_undoRun {db db' : DB} {snap : Snapshot} {n : Nat} (h : wfDB db)
    (he : undoRun db snap = .ok (db', n)) : wfDB db' := by
  unfold undoRun at he
  cases h1 : restoreParentStep db snap with
  | error e => simp only [h1] at he; exact Except.noConfusion he
  | ok p1 =>
    simp only [h1] at he
    cases h2 : mainRestore p1.1 snap with
    | error e => simp only [h2] at he; exact Except.noConfusion he
    | ok p2 =>
      simp only [h2] at he
      cases h3 : restoreManual p2.1 snap.model snap.mode p2.2.2
          snap.manually_deleted_examples with
      | error e => simp only [h3] at he; exact Except.noConfusion he
      | ok p3 =>
        simp only [h3] at he
        injection he with h4
        have h5 := congrArg Prod.fst h4
        simp only at h5
        rw [← h5]
        have hw1 : wfDB p1.1 := wf_restoreParentStep h (by rw [h1])
        have hw2 : wfDB p2.1 := wf_mainRestore hw1 (by rw [h2])
        exact wf_restoreManual hw2 (by rw [h3])

theorem contains_singleton_id (a b : Nat) : [a].contains b = (b == a) := by
  simp only [List.contains_cons, List.contains_nil, Bool.or_false]

theorem pairwiseIdsOk_sound :
    ∀ l : List (ModelName × Row), pairwiseIdsOk l = true →
      l.Pairwise (fun e1 e2 => e1.1 = e2.1 → e1.2.id ≠ e2.2.id) := by
  intro l
  induction l with
  | nil => intro _; exact List.Pairwise.nil
  | cons e t ih =>
    intro h
    unfold pairwiseIdsOk at h
    rcases (Bool.and_eq_true _ _).mp h with ⟨h1, h2⟩
    refine List.Pairwise.cons ?_ (ih h2)
    intro x hx heq
    have h3 := List.all_eq_true.mp h1 x hx
    rcases (Bool.or_eq_true _ _).mp h3 with h4 | h4
    · exact absurd heq (by simpa using h4)
    · exact (by simpa using h4 : ¬ e.2.id = x.2.id)

theorem wfCheck_sound {db : DB} (h : wfCheck db = true) : wfDB db := by
  unfold wfCheck at h
  rcases (Bool.and_eq_true _ _).mp h with ⟨h1, h2⟩
  refine ⟨pairwiseIdsOk_sound db.rows h1, ?_⟩
  intro e he
  have h3 := List.all_eq_true.mp h2 e he
  simpa using h3

theorem schemaCheck_sound {db : DB} (h : schemaCheck db = true) :
    schemaOk db := by
  unfold schemaCheck at h
  intro e he
  have h1 := List.all_eq_true.mp h e he
  rcases (Bool.and_eq_true _ _).mp h1 with ⟨ha, hb⟩
  constructor
  · intro hreq
    rw [hreq] at hb
    simpa using hb
  · intro hreq
    rw [hreq] at ha
    simpa using ha

theorem restoreParentStep_skip {db : DB} {snap : Snapshot} {pm : ModelName}
    {sr : SRow} (hptd : snap.parent_to_delete = some (pm, sr))
    (hex : db.idExists pm sr.id = true) :
    restoreParentStep db snap = .ok (db, 0) := by
  unfold restoreParentStep
  simp [hptd, hex]

/-- C8: when the snapshot's `parent_to_delete` row already exists in the
database at restore time, the parent-restore step of `undo_deletion` skips
recreating it (it returns the database unchanged), and after the whole undo —
whether it succeeds or rolls back — at most one row of that model carries the
ancestor's id: no duplicate is created. -/
theorem claim_C8_idempotent_restore_guard (s : OpState) (opId : String)
    (snap : Snapshot) (pm : ModelName) (sr : SRow)
    (hwf : wfDB s.db)
    (hget : cacheGet s.cache ("deletion_" ++ opId) = some snap)
    (hptd : snap.parent_to_delete = some (pm, sr))
    (hex : s.db.idExists pm sr.id = true) :
    restoreParentStep s.db snap = .ok (s.db, 0) ∧
    countId (undo_deletion opId s).2.db pm sr.id ≤ 1 := by
  refine ⟨restoreParentStep_skip hptd hex, ?_⟩
  unfold undo_deletion
  simp only [hget]
  cases hrun : undoRun s.db snap with
  | error e =>
    simp only [hrun]
    exact countId_le_one hwf pm sr.id
  | ok p =>
    simp only [hrun]
    exact countId_le_one (wf_undoRun hwf hrun) pm sr.id

/-- C8, witness: the orphan-cascade snapshot carries FrenchWord 1 under
`parent_to_delete`; with the word still present in the database, the undo
leaves a single row with id 1 in the FrenchWord table. -/
theorem claim_C8_witness :
    countId (undo_deletion "op8"
        ⟨dbOrphanFr,
         [("deletion_op8", buildDeleteByIdSnapshot dbOrphanFr .FrenchExample 2
            ⟨2, some 1, sampleExampleAttrs⟩)]⟩).2.db .FrenchWord 1 ≤ 1 :=
  (claim_C8_idempotent_restore_guard
    ⟨dbOrphanFr,
     [("deletion_op8", buildDeleteByIdSnapshot dbOrphanFr .FrenchExample 2
        ⟨2, some 1, sampleExampleAttrs⟩)]⟩
    "op8"
    (buildDeleteByIdSnapshot dbOrphanFr .FrenchExample 2
      ⟨2, some 1, sampleExampleAttrs⟩)
    .FrenchWord ⟨1, sampleWordAttrs⟩
    (wfCheck_sound (by decide)) (by decide) (by decide) (by decide)).2

/-- C1, counterexample: for the single-id selection mode the round trip
fails.  Deleting SpanishWord 1 (with its example, SpanishExample 2) and
undoing via the returned operation id reports success, but the restored data
set is not equal to the pre-delete state: the example's original id is popped
and discarded by the single-record restore path, so the example comes back
under a fresh id. -/
theorem claim_C1_cex :
    (delete_by_id .SpanishWord 1 ⟨dbSingleSpanish, []⟩ "op1").1 = .ok "op1" ∧
    (undo_deletion "op1"
        (delete_by_id .SpanishWord 1 ⟨dbSingleSpanish, []⟩ "op1").2).1 = .ok 1 ∧
    ¬ List.Perm
        (undo_deletion "op1"
          (delete_by_id .SpanishWord 1 ⟨dbSingleSpanish, []⟩ "op1").2).2.db.rows
        dbSingleSpanish.rows := by
  decide

/-- C3: deleting FrenchExample 2 — the last example of FrenchWord 1 — succeeds
and removes both rows, with the word's data captured under
`parent_to_delete`; but the single `undo_deletion` of that operation fails
(the serialized example carries no foreign-key value and `parent_data` is
never read back, so re-saving the example violates its NOT NULL foreign-key
column) and restores nothing: the state is exactly the post-delete state. -/
theorem claim_C3_undo_of_orphan_cascade_fails :
    (delete_by_id .FrenchExample 2 ⟨dbOrphanFr, []⟩ "op3").1 = .ok "op3" ∧
    (delete_by_id .FrenchExample 2 ⟨dbOrphanFr, []⟩ "op3").2.db.rows = [] ∧
    (cacheGet (delete_by_id .FrenchExample 2 ⟨dbOrphanFr, []⟩ "op3").2.cache
        "deletion_op3").map (fun sn => sn.parent_to_delete)
      = some (some (.FrenchWord, ⟨1, sampleWordAttrs⟩)) ∧
    (undo_deletion "op3"
        (delete_by_id .FrenchExample 2 ⟨dbOrphanFr, []⟩ "op3").2).1
      = .error "error restoring data for operation" ∧
    (undo_deletion "op3"
        (delete_by_id .FrenchExample 2 ⟨dbOrphanFr, []⟩ "op3").2).2
      = (delete_by_id .FrenchExample 2 ⟨dbOrphanFr, []⟩ "op3").2 := by
  decide

/-- C5, counterexample: undoing a range-mode snapshot whose related child row
references the missing parent id 99 reports success, yet the child is skipped
— no stub parent row with id 99 is created and the child row is not
restored. -/
theorem claim_C5_cex :
    (undo_deletion "op5"
        ⟨⟨[], 1⟩, [("deletion_op5", snapDanglingRelated)]⟩).1 = .ok 1 ∧
    (undo_deletion "op5"
        ⟨⟨[], 1⟩, [("deletion_op5", snapDanglingRelated)]⟩).2.db.idExists
        .SpanishWord 99 = false ∧
    (undo_deletion "op5"
        ⟨⟨[], 1⟩, [("deletion_op5", snapDanglingRelated)]⟩).2.db.table
        .SpanishExample = [] := by
  decide

/-- C6, counterexample: `delete_by_id_range` does not normalize swapped
bounds.  With only SpanishWord 4 present, the swapped call (5, 3) fails with
`NotFound` and changes nothing, while the ordered call (3, 5) deletes the
word — swapped bounds do not select the same rows. -/
theorem claim_C6_cex :
    (delete_by_id_range .SpanishWord 5 3 ⟨dbOneWordId4, []⟩ "op6").1
      = .error (.notFound "no records found in the ID range") ∧
    (delete_by_id_range .SpanishWord 5 3 ⟨dbOneWordId4, []⟩ "op6").2
      = ⟨dbOneWordId4, []⟩ ∧
    (delete_by_id_range .SpanishWord 3 5 ⟨dbOneWordId4, []⟩ "op6").1
      = .ok ("op6", 1) := by
  decide

/-- C2: snapshot persistence happens strictly before any row removal.  When
the snapshot a delete operation builds from the pre-delete database fails to
serialize, the operation returns the serialization error with the database
and the operation store both exactly as they were (no row deleted); when it
serializes, the operation store of the result holds, under the operation id,
precisely the snapshot captured from the pre-delete state.  Stated for
`delete_by_id` and `delete_by_field_value`, the two operations the claim
cites. -/
theorem claim_C2_snapshot_before_delete (m : ModelName) (i : Nat)
    (f fres : String) (v : Nat) (drp : Bool) (s : OpState) (op1 op2 : String)
    (inst : Row)
    (hinst : s.db.getById m i = some inst)
    (hres : resolveFieldName m f = .ok fres)
    (hne : ((s.db.table m).filter (fieldMatches m fres v)).isEmpty = false) :
    ((buildDeleteByIdSnapshot s.db m i inst).jsonSerializable = false →
        delete_by_id m i s op1
          = (.error (.serialization "Error preparing data for caching"), s)) ∧
    ((buildDeleteByIdSnapshot s.db m i inst).jsonSerializable = true →
        cacheGet (delete_by_id m i s op1).2.cache ("deletion_" ++ op1)
          = some (buildDeleteByIdSnapshot s.db m i inst)) ∧
    ((buildByFieldSnapshot s.db m fres v drp
          ((s.db.table m).filter (fieldMatches m fres v))).jsonSerializable
            = false →
        delete_by_field_value m f v drp s op2
          = (.error (.serialization "Error preparing data for caching"), s)) ∧
    ((buildByFieldSnapshot s.db m fres v drp
          ((s.db.table m).filter (fieldMatches m fres v))).jsonSerializable
            = true →
        cacheGet (delete_by_field_value m f v drp s op2).2.cache
            ("deletion_" ++ op2)
          = some (buildByFieldSnapshot s.db m fres v drp
              ((s.db.table m).filter (fieldMatches m fres v)))) := by
  refine ⟨?_, ?_, ?_, ?_⟩
  · intro hbad
    simp only [delete_by_id, hinst, hbad, Bool.false_eq_true, if_false]
  · intro hgood
    simp only [delete_by_id, hinst, hgood, if_true]
    exact cacheGet_cacheSet_self _ _ _
  · intro hbad
    simp only [delete_by_field_value, hres, hne, Bool.false_eq_true, if_false,
      hbad]
  · intro hgood
    simp only [delete_by_field_value, hres, hne, Bool.false_eq_true, if_false,
      hgood, if_true]
    exact cacheGet_cacheSet_self _ _ _

/-- C2, witness: on the concrete FrenchExample deletion the persisted
snapshot is the pre-delete capture, and on a FrenchWord carrying an
unserializable value the deletion aborts with a serialization error leaving
the state untouched. -/
theorem claim_C2_witness :
    cacheGet (delete_by_id .FrenchExample 2 ⟨dbOrphanFr, []⟩ "w2").2.cache
        ("deletion_" ++ "w2")
      = some (buildDeleteByIdSnapshot dbOrphanFr .FrenchExample 2
          ⟨2, some 1, sampleExampleAttrs⟩) ∧
    delete_by_id .FrenchWord 1 ⟨dbUnserializable, []⟩ "w2c"
      = (.error (.serialization "Error preparing data for caching"),
         ⟨dbUnserializable, []⟩) :=
  ⟨(claim_C2_snapshot_before_delete .FrenchExample 2 "french_word_id"
      "french_word_id" 1 false ⟨dbOrphanFr, []⟩ "w2" "w2b"
      ⟨2, some 1, sampleExampleAttrs⟩ (by decide) (by decide) (by decide)).2.1
      (by decide),
   (claim_C2_snapshot_before_delete .FrenchWord 1 "id" "id" 1 false
      ⟨dbUnserializable, []⟩ "w2c" "w2d"
      ⟨1, none, [("noun_form", .unserializable "io_object")]⟩ (by decide)
      (by decide) (by decide)).1 (by decide)⟩

/-- C4: when the snapshot is present and any row save fails during the
restore, `undo_deletion` reports the error, the whole transaction rolls back
(the returned state is the input state, so no restored row remains), and the
snapshot is still in the operation store for a later retry. -/
theorem claim_C4_failed_undo_rolls_back (opId : String) (s : OpState)
    (snap : Snapshot) (err : UndoErr)
    (hget : cacheGet s.cache ("deletion_" ++ opId) = some snap)
    (hfail : undoRun s.db snap = .error err) :
    (undo_deletion opId s).1 = .error "error restoring data for operation" ∧
    (undo_deletion opId s).2 = s ∧
    cacheGet (undo_deletion opId s).2.cache ("deletion_" ++ opId)
      = some snap := by
  simp only [undo_deletion, hget, hfail]
  exact ⟨trivial, trivial, trivial⟩

/-- C4, witness: the failing undo of the orphan-cascade snapshot (the
FrenchExample restore violates its NOT NULL foreign key) leaves the
post-delete state and the stored snapshot untouched. -/
theorem claim_C4_witness :
    (undo_deletion "op3"
        (delete_by_id .FrenchExample 2 ⟨dbOrphanFr, []⟩ "op3").2).2
      = (delete_by_id .FrenchExample 2 ⟨dbOrphanFr, []⟩ "op3").2 :=
  (claim_C4_failed_undo_rolls_back "op3"
    (delete_by_id .FrenchExample 2 ⟨dbOrphanFr, []⟩ "op3").2
    (buildDeleteByIdSnapshot dbOrphanFr .FrenchExample 2
      ⟨2, some 1, sampleExampleAttrs⟩)
    .notNullViolation (by decide) (by decide)).2.1

/-- C5 (amended): stub-parent recreation lives in the
`manually_deleted_examples` restore path, not in the `related_data` one:
undoing a snapshot whose manually tracked example references a FrenchWord `w`
absent from the database succeeds, recreates the word as a minimal stub row
(original id, every other field at its default) and attaches the example to
it, while a `related_data` child with a missing parent is skipped without a
stub (counterexample). -/
theorem claim_C5_amended (s : OpState) (opId : String) (e w : Nat)
    (attrsE : List (String × Value))
    (hget : cacheGet s.cache ("deletion_" ++ opId)
        = some (manualOnlySnapshot e attrsE w))
    (hno : s.db.idExists .FrenchWord w = false) :
    (undo_deletion opId s).1 = .ok 1 ∧
    (undo_deletion opId s).2.db.getById .FrenchWord w = some ⟨w, none, []⟩ ∧
    (⟨e, some w, attrsE⟩ : Row) ∈
      (undo_deletion opId s).2.db.table .FrenchExample := by
  have hrun : undoRun s.db (manualOnlySnapshot e attrsE w)
      = .ok (upsertRow (upsertRow s.db .FrenchWord ⟨w, none, []⟩)
          .FrenchExample ⟨e, some w, attrsE⟩, 1) := by
    unfold undoRun manualOnlySnapshot restoreParentStep mainRestore
      restoreInstances restoreRelatedByParent restoreManual clearStep
      restoreManualOne lastInstanceVar
    simp [hno]
  have hundo : undo_deletion opId s
      = (.ok 1,
         ⟨upsertRow (upsertRow s.db .FrenchWord ⟨w, none, []⟩)
            .FrenchExample ⟨e, some w, attrsE⟩,
          cacheDelete s.cache ("deletion_" ++ opId)⟩) := by
    simp only [undo_deletion, hget, hrun]
  rw [hundo]
  refine ⟨rfl, ?_, ?_⟩
  · have h2 : (upsertRow s.db .FrenchWord ⟨w, none, []⟩).getById
        .FrenchWord w = some ⟨w, none, []⟩ :=
      getById_upsertRow_insert s.db .FrenchWord ⟨w, none, []⟩ hno
    unfold DB.getById at h2 ⊢
    rw [table_upsertRow_ne _ .FrenchExample .FrenchWord _ (by decide)]
    exact h2
  · exact mem_table_upsertRow_self _ .FrenchExample ⟨e, some w, attrsE⟩

/-- C5, witness: undoing a manual-example snapshot referencing the missing
FrenchWord 42 creates the stub word and re-attaches example 7 to it. -/
theorem claim_C5_witness :
    (undo_deletion "op5m"
        ⟨⟨[], 1⟩, [("deletion_op5m", manualOnlySnapshot 7 sampleExampleAttrs 42)]⟩).2.db.getById
        .FrenchWord 42 = some ⟨42, none, []⟩ :=
  (claim_C5_amended ⟨⟨[], 1⟩,
      [("deletion_op5m", manualOnlySnapshot 7 sampleExampleAttrs 42)]⟩
    "op5m" 7 42 sampleExampleAttrs (by decide) (by decide)).2.1

/-- C9: the orphan cascade is keyed to the literal model name FrenchExample.
For every other example model, deleting the last remaining example of its word
by id succeeds, removes exactly that example row, and leaves the word table —
indeed every other table — untouched: the parent word is never deleted. -/
theorem claim_C9_cascade_only_french (m wm : ModelName) (eid : Nat)
    (s : OpState) (opId : String) (r : Row)
    (hm : (m, wm) ∈ [(ModelName.SpanishExample, ModelName.SpanishWord),
        (ModelName.ItalianExample, ModelName.ItalianWord),
        (ModelName.RussianExample, ModelName.RussianWord),
        (ModelName.JapaneseExample, ModelName.JapaneseWord)])
    (hr : s.db.getById m eid = some r)
    (_hlast : (s.db.table m).filter
        (fun x => x.parentId == r.parentId && !(x.id == eid)) = [])
    (hser : (buildDeleteByIdSnapshot s.db m eid r).jsonSerializable = true) :
    (delete_by_id m eid s opId).1 = .ok opId ∧
    (delete_by_id m eid s opId).2.db.table wm = s.db.table wm ∧
    (delete_by_id m eid s opId).2.db.table m
      = (s.db.table m).filter (fun x => !(x.id == eid)) := by
  simp only [List.mem_cons, List.not_mem_nil, or_false] at hm
  have hfacts : (m == ModelName.FrenchExample) = false ∧ (wm == m) = false ∧
      relatedModels m = [] := by
    rcases hm with h | h | h | h <;>
      (rw [Prod.mk.injEq] at h; rw [h.1, h.2];
       exact ⟨by decide, by decide, by decide⟩)
  obtain ⟨hmf, hwmne, hrel⟩ := hfacts
  have hresult : delete_by_id m eid s opId
      = (.ok opId, ⟨cascadeDelete s.db m [eid],
         cacheSet s.cache ("deletion_" ++ opId)
           (buildDeleteByIdSnapshot s.db m eid r)⟩) := by
    simp only [delete_by_id, hr, hser, if_true, hmf, Bool.false_and,
      Bool.false_eq_true, if_false]
  refine ⟨by rw [hresult], ?_, ?_⟩
  · rw [hresult]
    show (cascadeDelete s.db m [eid]).table wm = s.db.table wm
    rw [table_cascadeDelete]
    refine List.filter_eq_self.mpr ?_
    intro x _
    simp [isCascadeVictim, hrel, hwmne]
  · rw [hresult]
    show (cascadeDelete s.db m [eid]).table m
        = (s.db.table m).filter (fun x => !(x.id == eid))
    rw [table_cascadeDelete]
    refine List.filter_congr ?_
    intro x _
    by_cases hx : x.id = eid <;>
      simp [isCascadeVictim, hrel, contains_singleton_id, hx]

/-- C9, witness: deleting the sole SpanishExample (id 2) of SpanishWord 1
leaves the SpanishWord table untouched and empties the SpanishExample
table. -/
theorem claim_C9_witness :
    (delete_by_id .SpanishExample 2 ⟨dbSingleSpanish, []⟩ "w9").2.db.table
        .SpanishWord = dbSingleSpanish.table .SpanishWord :=
  (claim_C9_cascade_only_french .SpanishExample .SpanishWord 2
    ⟨dbSingleSpanish, []⟩ "w9" ⟨2, some 1, sampleExampleAttrs⟩
    (by decide) (by decide) (by decide) (by decide)).2.1

theorem contains_map_id_iff {l : List Row} {i : Nat} :
    (l.map (fun y => y.id)).contains i = true ↔ ∃ y ∈ l, y.id = i := by
  rw [List.contains_iff_exists_mem_beq]
  constructor
  · rintro ⟨a, ha, hb⟩
    rcases List.mem_map.mp ha with ⟨y, hy, rfl⟩
    exact ⟨y, hy, (beq_iff_eq.mp hb).symm⟩
  · rintro ⟨y, hy, rfl⟩
    exact ⟨y.id, List.mem_map.mpr ⟨y, hy, rfl⟩, beq_iff_eq.mpr rfl⟩

/-- `delete_by_field_value` on a recognized foreign-key field whose referenced
parent row is missing: with `delete_related_parent` set, the operation still
succeeds, deletes exactly the matching child rows, and deletes no row of any
other model (in particular no parent).  The schema facts about the model pair
are hypotheses, discharged per language pair in `claim_C10`. -/
theorem delete_by_field_value_missing_parent (m wm : ModelName) (fid : String)
    (fname : String) (v : Nat) (s : OpState) (opId : String)
    (hwf : wfDB s.db)
    (hres : resolveFieldName m fid = .ok fid)
    (hfm : fieldMatches m fid v = fun r => r.parentId == some v)
    (hrel : relatedModels m = [])
    (hfk : fkField m = some (wm, fname))
    (hfid : fid = fname ++ "_id")
    (hne : ((s.db.table m).filter
        (fun r => r.parentId == some v)).isEmpty = false)
    (hser : (buildByFieldSnapshot s.db m fid v true
        ((s.db.table m).filter
          (fun r => r.parentId == some v))).jsonSerializable = true)
    (hnop : s.db.getById wm v = none) :
    (delete_by_field_value m fid v true s opId).1
      = .ok (opId, ((s.db.table m).filter
          (fun r => r.parentId == some v)).length) ∧
    (∀ m', ¬ m' = m →
      (delete_by_field_value m fid v true s opId).2.db.table m'
        = s.db.table m') ∧
    (delete_by_field_value m fid v true s opId).2.db.table m
      = (s.db.table m).filter (fun x => !(x.parentId == some v)) := by
  have hfkat : fkAttname m = some fid := by
    rw [fkAttname, hfk, hfid]
    rfl
  have hresult : delete_by_field_value m fid v true s opId
      = (.ok (opId, ((s.db.table m).filter
            (fun r => r.parentId == some v)).length),
         ⟨cascadeDelete s.db m (((s.db.table m).filter
             (fun r => r.parentId == some v)).map (fun x => x.id)),
          cacheSet s.cache ("deletion_" ++ opId)
            (buildByFieldSnapshot s.db m fid v true
              ((s.db.table m).filter (fun r => r.parentId == some v)))⟩) := by
    simp only [delete_by_field_value, hres, hfm, hne, Bool.false_eq_true,
      if_false, hser, if_true, hfkat, Bool.true_and, beq_self_eq_true, hfk,
      hnop, Option.isSome_none]
  refine ⟨by rw [hresult], ?_, ?_⟩
  · intro m' hm'
    rw [hresult]
    show (cascadeDelete s.db m _).table m' = s.db.table m'
    rw [table_cascadeDelete]
    refine List.filter_eq_self.mpr ?_
    intro x _
    have hm2 : (m' == m) = false := by simpa using hm'
    simp [isCascadeVictim, hrel, hm2]
  · rw [hresult]
    show (cascadeDelete s.db m _).table m
        = (s.db.table m).filter (fun x => !(x.parentId == some v))
    rw [table_cascadeDelete]
    refine List.filter_congr ?_
    intro x hx
    have hcont : ((((s.db.table m).filter
        (fun r => r.parentId == some v)).map (fun y => y.id)).contains x.id)
        = (x.parentId == some v) := by
      by_cases hp : (x.parentId == some v) = true
      · rw [hp]
        refine contains_map_id_iff.mpr ?_
        exact ⟨x, List.mem_filter.mpr ⟨hx, hp⟩, rfl⟩
      · have hp2 : (x.parentId == some v) = false := by
          rwa [Bool.not_eq_true] at hp
        rw [hp2]
        rw [← Bool.not_eq_true]
        intro hc
        rcases contains_map_id_iff.mp hc with ⟨y, hy, hyid⟩
        have hxy : y = x :=
          table_id_inj hwf (List.mem_of_mem_filter hy) hx hyid
        have hyp := (List.mem_filter.mp hy).2
        rw [hxy, hp2] at hyp
        exact Bool.false_ne_true hyp
    simp only [isCascadeVictim, hrel, List.any_nil, Bool.false_and,
      Bool.or_false, beq_self_eq_true, Bool.true_and]
    rw [hcont]

/-- C10: for each language pair, calling `delete_by_field_value` with
`delete_related_parent = true` on the foreign-key id field with a value whose
referenced parent word does not exist does not fail: it deletes exactly the
matching child rows, returns success with the child count and the operation
id, and deletes no parent (every other table is unchanged). -/
theorem claim_C10_missing_parent_ok (m wm : ModelName) (fname : String)
    (v : Nat) (s : OpState) (opId : String)
    (hm : (m, wm, fname) ∈
      [(ModelName.FrenchExample, ModelName.FrenchWord, "french_word"),
       (ModelName.SpanishExample, ModelName.SpanishWord, "spanish_word"),
       (ModelName.ItalianExample, ModelName.ItalianWord, "italian_word"),
       (ModelName.RussianExample, ModelName.RussianWord, "russian_word"),
       (ModelName.JapaneseExample, ModelName.JapaneseWord, "japanese_word")])
    (hwf : wfDB s.db)
    (hne : ((s.db.table m).filter
        (fun r => r.parentId == some v)).isEmpty = false)
    (hser : (buildByFieldSnapshot s.db m (fname ++ "_id") v true
        ((s.db.table m).filter
          (fun r => r.parentId == some v))).jsonSerializable = true)
    (hnop : s.db.getById wm v = none) :
    (delete_by_field_value m (fname ++ "_id") v true s opId).1
      = .ok (opId, ((s.db.table m).filter
          (fun r => r.parentId == some v)).length) ∧
    (∀ m', ¬ m' = m →
      (delete_by_field_value m (fname ++ "_id") v true s opId).2.db.table m'
        = s.db.table m') ∧
    (delete_by_field_value m (fname ++ "_id") v true s opId).2.db.table m
      = (s.db.table m).filter (fun x => !(x.parentId == some v)) := by
  simp only [List.mem_cons, List.not_mem_nil, or_false] at hm
  refine delete_by_field_value_missing_parent m wm (fname ++ "_id") fname v s
    opId hwf ?_ ?_ ?_ ?_ rfl hne hser hnop
  · rcases hm with h | h | h | h | h <;>
      (rw [Prod.mk.injEq, Prod.mk.injEq] at h; rw [h.1, h.2.2]; decide)
  · rcases hm with h | h | h | h | h <;>
      (rw [Prod.mk.injEq, Prod.mk.injEq] at h; rw [h.1, h.2.2]; funext r;
       unfold fieldMatches;
       rw [if_neg (by decide), if_pos (by decide)])
  · rcases hm with h | h | h | h | h <;>
      (rw [Prod.mk.injEq, Prod.mk.injEq] at h; rw [h.1]; decide)
  · rcases hm with h | h | h | h | h <;>
      (rw [Prod.mk.injEq, Prod.mk.injEq] at h; rw [h.1, h.2.1, h.2.2]; decide)

/-- C10, witness: deleting SpanishExamples by `spanish_word_id = 9` with the
parent flag set, where SpanishWord 9 does not exist, succeeds with count 2 and
leaves the SpanishWord table untouched. -/
theorem claim_C10_witness :
    (delete_by_field_value .SpanishExample ("spanish_word" ++ "_id") 9 true
        ⟨dbDanglingSpanish, []⟩ "wA").1 = .ok ("wA", 2) :=
  ((claim_C10_missing_parent_ok .SpanishExample .SpanishWord "spanish_word" 9
      ⟨dbDanglingSpanish, []⟩ "wA" (by decide) (wfCheck_sound (by decide))
      (by decide) (by decide) (by decide)).1).trans (by decide)

theorem beq_symm_model (a b : ModelName) : (a == b) = (b == a) := by
  by_cases h : a = b
  · rw [h]
  · have h1 : (a == b) = false := by simpa using h
    have h2 : (b == a) = false := by simpa using fun hh => h hh.symm
    rw [h1, h2]

theorem table_append (rows1 rows2 : List (ModelName × Row)) (n : Nat)
    (m : ModelName) :
    (DB.mk (rows1 ++ rows2) n).table m
      = (DB.mk rows1 n).table m ++ (DB.mk rows2 n).table m := by
  unfold DB.table
  simp only
  rw [List.filter_append, List.map_append]

theorem table_map_entries_self (l : List Row) (m : ModelName) (n : Nat) :
    (DB.mk (l.map (fun r => (m, r))) n).table m = l := by
  unfold DB.table
  simp only
  induction l with
  | nil => rfl
  | cons r t ih =>
    rw [List.map_cons,
      filter_cons_true (fun (e : ModelName × Row) => e.1 == m) _ _ (by simp),
      List.map_cons, ih]

theorem table_map_entries_ne (l : List Row) (mm m : ModelName) (n : Nat)
    (h : ¬ mm = m) :
    (DB.mk (l.map (fun r => (mm, r))) n).table m = [] := by
  unfold DB.table
  simp only
  induction l with
  | nil => rfl
  | cons r t ih =>
    rw [List.map_cons,
      filter_cons_false (fun (e : ModelName × Row) => e.1 == m) _ _
        (by simpa using h), ih]

theorem filter_or_disjoint_perm {α : Type} (p q : α → Bool)
    (hdisj : ∀ x, p x = true → q x = false) :
    ∀ l : List α, List.Perm (l.filter (fun x => p x || q x))
      (l.filter p ++ l.filter q) := by
  intro l
  induction l with
  | nil => exact List.Perm.refl _
  | cons x t ih =>
    by_cases hp : p x = true
    · have hq := hdisj x hp
      rw [filter_cons_true (fun x => p x || q x) _ _ (by simp [hp]),
          filter_cons_true p _ _ hp, filter_cons_false q _ _ hq,
          List.cons_append]
      exact ih.cons x
    · have hp2 : p x = false := by rwa [Bool.not_eq_true] at hp
      by_cases hq : q x = true
      · rw [filter_cons_true (fun x => p x || q x) _ _ (by simp [hp2, hq]),
            filter_cons_false p _ _ hp2, filter_cons_true q _ _ hq]
        exact (ih.cons x).trans List.perm_middle.symm
      · have hq2 : q x = false := by rwa [Bool.not_eq_true] at hq
        rw [filter_cons_false (fun x => p x || q x) _ _ (by simp [hp2, hq2]),
            filter_cons_false p _ _ hp2, filter_cons_false q _ _ hq2]
        exact ih

theorem filter_model_pred (rows : List (ModelName × Row)) (n : Nat)
    (m : ModelName) (q : Row → Bool) :
    rows.filter (fun e => e.1 == m && q e.2)
      = (((DB.mk rows n).table m).filter q).map (fun r => (m, r)) := by
  unfold DB.table
  simp only
  induction rows with
  | nil => rfl
  | cons e t ih =>
    rcases e with ⟨me, re⟩
    by_cases hm : me = m
    · subst hm
      by_cases hq : q re = true
      · rw [filter_cons_true
            (fun (e : ModelName × Row) => e.1 == me && q e.2) _ _
            (by simp [hq]),
          filter_cons_true (fun (e : ModelName × Row) => e.1 == me) _ _
            (by simp),
          List.map_cons, filter_cons_true q _ _ hq, List.map_cons, ih]
      · have hq2 : q re = false := by rwa [Bool.not_eq_true] at hq
        rw [filter_cons_false
            (fun (e : ModelName × Row) => e.1 == me && q e.2) _ _
            (by simp [hq2]),
          filter_cons_true (fun (e : ModelName × Row) => e.1 == me) _ _
            (by simp),
          List.map_cons, filter_cons_false q _ _ hq2, ih]
    · have hm2 : ((me, re).1 == m) = false := by simpa using hm
      rw [filter_cons_false
          (fun (e : ModelName × Row) => e.1 == m && q e.2) _ _
          (by simp [hm2]),
        filter_cons_false (fun (e : ModelName × Row) => e.1 == m) _ _ hm2, ih]

theorem restoreInstances_append (m : ModelName)
    (hreq : requiresParent m = false) :
    ∀ (l : List Row) (db : DB),
      (∀ r ∈ l, r.id < db.nextId) →
      (∀ r ∈ l, db.idExists m r.id = false) →
      (l.map (fun r => r.id)).Nodup →
      restoreInstances db m (l.map serialize_model_instance)
        = .ok ⟨db.rows ++ l.map (fun r => (m, ⟨r.id, none, r.attrs⟩)),
            db.nextId⟩ := by
  intro l
  induction l with
  | nil =>
    intro db _ _ _
    rw [List.map_nil, List.map_nil, List.append_nil]
    rfl
  | cons r t ih =>
    intro db hbound hex hnd
    simp only [List.map_cons]
    unfold restoreInstances
    simp only [serialize_model_instance]
    have hex1 : db.idExists m (⟨r.id, none, r.attrs⟩ : Row).id = false :=
      hex r (List.mem_cons_self _ _)
    have hsave : saveRow db m ⟨r.id, none, r.attrs⟩
        = .ok ⟨db.rows ++ [(m, ⟨r.id, none, r.attrs⟩)], db.nextId⟩ := by
      unfold saveRow upsertRow
      rw [if_neg (by simp [hreq]),
        if_neg (by rw [hex1]; exact Bool.false_ne_true)]
      have hmax : max db.nextId ((⟨r.id, none, r.attrs⟩ : Row).id + 1)
          = db.nextId :=
        Nat.max_eq_left (Nat.succ_le_of_lt (hbound r (List.mem_cons_self _ _)))
      rw [hmax]
    simp only [hsave]
    have htab : ∀ m' : ModelName,
        (DB.mk (db.rows ++ [(m, ⟨r.id, none, r.attrs⟩)]) db.nextId).table m'
          = db.table m' ++ (DB.mk [(m, ⟨r.id, none, r.attrs⟩)] db.nextId).table m' := by
      intro m'
      exact table_append db.rows _ db.nextId m'
    have hih := ih ⟨db.rows ++ [(m, ⟨r.id, none, r.attrs⟩)], db.nextId⟩
      (fun x hx => hbound x (List.mem_cons_of_mem _ hx))
      ?_ (List.nodup_cons.mp (by rwa [List.map_cons] at hnd)).2
    · rw [hih, List.append_assoc]
      rfl
    · intro x hx
      unfold DB.idExists
      rw [htab m]
      rw [List.any_append]
      have h1 : (db.table m).any (fun rr => rr.id == x.id) = false :=
        hex x (List.mem_cons_of_mem _ hx)
      have h2 : ((DB.mk [(m, ⟨r.id, none, r.attrs⟩)] db.nextId).table m).any
          (fun rr => rr.id == x.id) = false := by
        have hne : ¬ r.id = x.id := by
          have hh := (List.nodup_cons.mp (by rwa [List.map_cons] at hnd)).1
          intro hc
          exact hh (hc ▸ List.mem_map.mpr ⟨x, hx, rfl⟩)
        have : (DB.mk [(m, ⟨r.id, none, r.attrs⟩)] db.nextId).table m
            = [⟨r.id, none, r.attrs⟩] := by
          unfold DB.table
          rw [filter_cons_true (fun (e : ModelName × Row) => e.1 == m) _ _
            (by simp)]
          rfl
        rw [this]
        simpa using hne
      rw [h1, h2]
      rfl

theorem restoreRelRows_append (m childM : ModelName) :
    ∀ (l : List Row) (db : DB),
      (∀ r ∈ l, r.id < db.nextId) →
      (∀ r ∈ l, db.idExists childM r.id = false) →
      (l.map (fun r => r.id)).Nodup →
      (∀ r ∈ l, ∃ w, r.parentId = some w ∧ db.idExists m w = true) →
      restoreRelRows m childM db
          (l.map (fun r => ⟨serialize_model_instance r, r.parentId⟩))
        = .ok ⟨db.rows ++ l.map (fun r => (childM, r)), db.nextId⟩ := by
  intro l
  induction l with
  | nil =>
    intro db _ _ _ _
    rw [List.map_nil, List.map_nil, List.append_nil]
    rfl
  | cons r t ih =>
    intro db hbound hex hnd hpar
    simp only [List.map_cons]
    unfold restoreRelRows
    rcases hpar r (List.mem_cons_self _ _) with ⟨w, hw, hwex⟩
    have hstep : restoreRelRow m childM db
        ⟨serialize_model_instance r, r.parentId⟩
        = .ok ⟨db.rows ++ [(childM, r)], db.nextId⟩ := by
      unfold restoreRelRow
      simp only [hw]
      rw [if_pos hwex]
      unfold saveRow upsertRow
      rw [if_neg (by simp)]
      have hex1 : db.idExists childM
          (⟨(serialize_model_instance r).id, some w,
            (serialize_model_instance r).attrs⟩ : Row).id = false :=
        hex r (List.mem_cons_self _ _)
      rw [if_neg (by rw [hex1]; exact Bool.false_ne_true)]
      have hrow : (⟨(serialize_model_instance r).id, some w,
          (serialize_model_instance r).attrs⟩ : Row) = r := by
        rw [← hw]
        rfl
      rw [hrow]
      have hmax : max db.nextId (r.id + 1) = db.nextId :=
        Nat.max_eq_left (Nat.succ_le_of_lt (hbound r (List.mem_cons_self _ _)))
      rw [hmax]
    simp only [hstep]
    have hih := ih ⟨db.rows ++ [(childM, r)], db.nextId⟩
      (fun x hx => hbound x (List.mem_cons_of_mem _ hx)) ?_
      (List.nodup_cons.mp (by rwa [List.map_cons] at hnd)).2 ?_
    · rw [hih, List.append_assoc]
      rfl
    · intro x hx
      unfold DB.idExists
      rw [table_append db.rows [(childM, r)] db.nextId childM,
        List.any_append]
      have h1 : (db.table childM).any (fun rr => rr.id == x.id) = false :=
        hex x (List.mem_cons_of_mem _ hx)
      have h2 : ((DB.mk [(childM, r)] db.nextId).table childM).any
          (fun rr => rr.id == x.id) = false := by
        have hne : ¬ r.id = x.id := by
          have hh := (List.nodup_cons.mp (by rwa [List.map_cons] at hnd)).1
          intro hc
          exact hh (hc ▸ List.mem_map.mpr ⟨x, hx, rfl⟩)
        have htb : (DB.mk [(childM, r)] db.nextId).table childM = [r] := by
          unfold DB.table
          rw [filter_cons_true (fun (e : ModelName × Row) => e.1 == childM)
            _ _ (by simp)]
          rfl
        rw [htb]
        simpa using hne
      rw [h1, h2]
      rfl
    · intro x hx
      rcases hpar x (List.mem_cons_of_mem _ hx) with ⟨w2, hw2, hwex2⟩
      refine ⟨w2, hw2, ?_⟩
      unfold DB.idExists
      rw [table_append db.rows [(childM, r)] db.nextId m, List.any_append]
      have h1 : (db.table m).any (fun rr => rr.id == w2) = true := hwex2
      rw [h1]
      rfl

theorem filter_split_perm {α : Type} (p : α → Bool) (l : List α) :
    List.Perm l (l.filter (fun x => !p x) ++ l.filter p) := by
  induction l with
  | nil => exact List.Perm.refl _
  | cons a t ih =>
    by_cases hp : p a = true
    · rw [List.filter_cons_of_neg (by simp [hp]),
          List.filter_cons_of_pos hp]
      exact (ih.cons a).trans List.perm_middle.symm
    · have hp2 : p a = false := by rwa [Bool.not_eq_true] at hp
      rw [List.filter_cons_of_pos (by simp [hp2]),
          List.filter_cons_of_neg (by simp [hp2]), List.cons_append]
      exact ih.cons a

/-- The id-range round trip over an arbitrary well-formed, schema-conformant
database, for any word model whose single child model is distinct from it and
whose manual-example path is off (every non-French word model): the delete
reports the matched count, the undo reports the same count, and the restored
rows are a permutation of the original rows.  The per-model schema facts are
hypotheses, discharged per language in `claim_C1_amended`. -/
theorem range_roundtrip_generic (m childM : ModelName) (fname : String)
    (a b : Nat) (s : OpState) (opId : String) (matched : List Row)
    (hrel : relatedModels m = [(childM, fname)])
    (hreqm : requiresParent m = false)
    (hcm : ¬ childM = m)
    (hmf : (m == ModelName.FrenchWord) = false)
    (hwf : wfDB s.db) (hsch : schemaOk s.db)
    (hmatch : matched = (s.db.table m).filter (fun r => a ≤ r.id && r.id ≤ b))
    (hne : matched ≠ [])
    (hser : (buildRangeSnapshot s.db m a b matched).jsonSerializable = true) :
    (delete_by_id_range m a b s opId).1 = .ok (opId, matched.length) ∧
    (undo_deletion opId (delete_by_id_range m a b s opId).2).1
      = .ok matched.length ∧
    List.Perm
      (undo_deletion opId (delete_by_id_range m a b s opId).2).2.db.rows
      s.db.rows := by
  set insts := (s.db.table childM).filter (fun r =>
    match r.parentId with
    | some w => (matched.map (fun x => x.id)).contains w
    | none => false) with hinsts
  set db' := cascadeDelete s.db m (matched.map (fun x => x.id)) with hdb'
  have hsub : ∀ r ∈ matched, r ∈ s.db.table m := by
    intro r hr
    rw [hmatch] at hr
    exact List.mem_of_mem_filter hr
  have hsubc : ∀ r ∈ insts, r ∈ s.db.table childM := by
    intro r hr
    rw [hinsts] at hr
    exact List.mem_of_mem_filter hr
  have hchild : ∀ r ∈ insts, ∃ w, r.parentId = some w
      ∧ (matched.map (fun x => x.id)).contains w = true := by
    intro r hr
    rw [hinsts] at hr
    have hc := (List.mem_filter.mp hr).2
    simp only at hc
    cases hp : r.parentId with
    | none =>
      simp only [hp] at hc
      exact absurd hc (by simp)
    | some w =>
      simp only [hp] at hc
      exact ⟨w, rfl, hc⟩
  have hboundm : ∀ r ∈ matched, r.id < s.db.nextId := by
    intro r hr
    exact hwf.2 (m, r) (mem_table_iff.mp (hsub r hr))
  have hboundc : ∀ r ∈ insts, r.id < s.db.nextId := by
    intro r hr
    exact hwf.2 (childM, r) (mem_table_iff.mp (hsubc r hr))
  have hndm : (matched.map (fun r => r.id)).Nodup := by
    rw [hmatch]
    exact (nodup_table_ids hwf m).sublist
      (List.Sublist.map _ (List.filter_sublist _))
  have hndc : (insts.map (fun r => r.id)).Nodup := by
    rw [hinsts]
    exact (nodup_table_ids hwf childM).sublist
      (List.Sublist.map _ (List.filter_sublist _))
  have hnone : ∀ r ∈ matched, r.parentId = none := by
    intro r hr
    exact (hsch (m, r) (mem_table_iff.mp (hsub r hr))).1 hreqm
  have hmapeq : matched.map
        (fun r => ((m, ⟨r.id, none, r.attrs⟩) : ModelName × Row))
      = matched.map (fun r => (m, r)) := by
    refine List.map_congr_left ?_
    intro r hr
    rw [← hnone r hr]
  have hvicm : ∀ r ∈ matched,
      isCascadeVictim m (matched.map (fun x => x.id)) (m, r) = true := by
    intro r hr
    have h1 : (matched.map (fun x => x.id)).contains r.id = true :=
      contains_map_id_iff.mpr ⟨r, hr, rfl⟩
    have hmm : (m == m) = true := by simp
    unfold isCascadeVictim
    simp only [h1, hmm, Bool.and_true, Bool.true_or]
  have hvicc : ∀ r ∈ insts,
      isCascadeVictim m (matched.map (fun x => x.id)) (childM, r) = true := by
    intro r hr
    rcases hchild r hr with ⟨w, hw, hcw⟩
    have hself : (childM == childM) = true := by simp
    unfold isCascadeVictim
    rw [hrel]
    simp only [List.any_cons, List.any_nil, Bool.or_false, hself, hw, hcw]
    simp
  have htabm' : db'.table m
      = (s.db.table m).filter
          (fun r => !isCascadeVictim m (matched.map (fun x => x.id)) (m, r)) := by
    rw [hdb']
    exact table_cascadeDelete s.db m _ m
  have htabc' : db'.table childM
      = (s.db.table childM).filter
          (fun r => !isCascadeVictim m (matched.map (fun x => x.id)) (childM, r)) := by
    rw [hdb']
    exact table_cascadeDelete s.db m _ childM
  have hexm : ∀ r ∈ matched, db'.idExists m r.id = false := by
    intro r hr
    refine idExists_eq_false_iff.mpr ?_
    intro x hx hxid
    rw [htabm'] at hx
    have hxT : x ∈ s.db.table m := List.mem_of_mem_filter hx
    have hcond := (List.mem_filter.mp hx).2
    have hxr : x = r := table_id_inj hwf hxT (hsub r hr) hxid
    rw [hxr, hvicm r hr] at hcond
    exact absurd hcond (by simp)
  have hboundm' : ∀ r ∈ matched, r.id < db'.nextId := by
    intro r hr
    exact hboundm r hr
  have hA : restoreInstances db' m (matched.map serialize_model_instance)
      = .ok ⟨db'.rows ++ matched.map (fun r => (m, r)), db'.nextId⟩ := by
    rw [restoreInstances_append m hreqm matched db' hboundm' hexm hndm, hmapeq]
  have htabAc : (⟨db'.rows ++ matched.map (fun r => (m, r)), db'.nextId⟩
        : DB).table childM
      = db'.table childM := by
    rw [table_append db'.rows (matched.map (fun r => (m, r))) db'.nextId childM,
        table_map_entries_ne matched m childM db'.nextId (fun h => hcm h.symm),
        List.append_nil]
  have htabAm : (⟨db'.rows ++ matched.map (fun r => (m, r)), db'.nextId⟩
        : DB).table m
      = db'.table m ++ matched := by
    rw [table_append db'.rows (matched.map (fun r => (m, r))) db'.nextId m,
        table_map_entries_self matched m db'.nextId]
  have hexcA : ∀ r ∈ insts,
      (⟨db'.rows ++ matched.map (fun r => (m, r)), db'.nextId⟩
        : DB).idExists childM r.id = false := by
    intro r hr
    refine idExists_eq_false_iff.mpr ?_
    intro x hx hxid
    rw [htabAc, htabc'] at hx
    have hxT : x ∈ s.db.table childM := List.mem_of_mem_filter hx
    have hcond := (List.mem_filter.mp hx).2
    have hxr : x = r := table_id_inj hwf hxT (hsubc r hr) hxid
    rw [hxr, hvicc r hr] at hcond
    exact absurd hcond (by simp)
  have hparA : ∀ r ∈ insts, ∃ w, r.parentId = some w ∧
      (⟨db'.rows ++ matched.map (fun r => (m, r)), db'.nextId⟩
        : DB).idExists m w = true := by
    intro r hr
    rcases hchild r hr with ⟨w, hw, hcw⟩
    refine ⟨w, hw, idExists_eq_true_iff.mpr ?_⟩
    rcases contains_map_id_iff.mp hcw with ⟨y, hy, hyid⟩
    refine ⟨y, ?_, hyid⟩
    rw [htabAm]
    exact List.mem_append_right _ hy
  have hboundcA : ∀ r ∈ insts,
      r.id < (⟨db'.rows ++ matched.map (fun r => (m, r)), db'.nextId⟩
        : DB).nextId := by
    intro r hr
    exact hboundc r hr
  have hB : restoreRelRows m childM
        ⟨db'.rows ++ matched.map (fun r => (m, r)), db'.nextId⟩
        (insts.map (fun r => ⟨serialize_model_instance r, r.parentId⟩))
      = .ok ⟨(db'.rows ++ matched.map (fun r => (m, r)))
            ++ insts.map (fun r => (childM, r)), db'.nextId⟩ :=
    restoreRelRows_append m childM insts _ hboundcA hexcA hndc hparA
  have hsnap : buildRangeSnapshot s.db m a b matched
      = ⟨m, .range, none, matched.map serialize_model_instance,
         [(childM, ⟨if insts.isEmpty then none else some fname,
            insts.map (fun r => ⟨serialize_model_instance r, r.parentId⟩)⟩)],
         [], none, []⟩ := by
    rw [hinsts]
    unfold buildRangeSnapshot
    rw [hrel]
    simp [hmf]
  have hman : ∀ (db : DB) (iv : Option (Option Nat)),
      restoreManual db m .range iv [] = .ok (db, 0) := by
    intro db iv
    rfl
  have hrun : undoRun db' (buildRangeSnapshot s.db m a b matched)
      = .ok (⟨(db'.rows ++ matched.map (fun r => (m, r)))
            ++ insts.map (fun r => (childM, r)), db'.nextId⟩,
          matched.length) := by
    rw [hsnap]
    simp only [undoRun, restoreParentStep, mainRestore, hA, hB,
      restoreRelatedByParent, hman, List.length_map, Nat.zero_add,
      Nat.add_zero]
  have hdel : delete_by_id_range m a b s opId
      = (.ok (opId, matched.length),
         ⟨db', cacheSet s.cache ("deletion_" ++ opId)
            (buildRangeSnapshot s.db m a b matched)⟩) := by
    rw [hdb']
    simp only [delete_by_id_range]
    rw [← hmatch]
    rw [if_neg (by rw [isEmpty_eq_false_of_ne_nil hne]; exact Bool.false_ne_true),
        if_pos hser]
  have hperm : List.Perm
      ((db'.rows ++ matched.map (fun r => (m, r)))
        ++ insts.map (fun r => (childM, r)))
      s.db.rows := by
    have hrows' : db'.rows = s.db.rows.filter
        (fun e => !isCascadeVictim m (matched.map (fun x => x.id)) e) := by
      rw [hdb']
      rfl
    have hptwise : ∀ r ∈ s.db.table m,
        ((matched.map (fun x => x.id)).contains r.id)
          = (a ≤ r.id && r.id ≤ b) := by
      intro r hrT
      by_cases hc : (a ≤ r.id && r.id ≤ b) = true
      · rw [hc]
        exact contains_map_id_iff.mpr
          ⟨r, by rw [hmatch]; exact List.mem_filter.mpr ⟨hrT, hc⟩, rfl⟩
      · have hc2 : (a ≤ r.id && r.id ≤ b) = false := by
          rwa [Bool.not_eq_true] at hc
        rw [hc2]
        cases hb2 : (matched.map (fun x => x.id)).contains r.id with
        | false => rfl
        | true =>
          rcases contains_map_id_iff.mp hb2 with ⟨y, hy, hyid⟩
          have hyr : y = r := table_id_inj hwf (hsub y hy) hrT hyid
          have hym := hy
          rw [hmatch, hyr] at hym
          have hcond := (List.mem_filter.mp hym).2
          simp only at hcond
          rw [hcond] at hc2
          exact absurd hc2 (by simp)
    have hinner : (s.db.table m).filter
          (fun r => (matched.map (fun x => x.id)).contains r.id)
        = matched := by
      rw [List.filter_congr hptwise]
      exact hmatch.symm
    have h4 : s.db.rows.filter
          (fun e => e.1 == m
            && (matched.map (fun x => x.id)).contains e.2.id)
        = matched.map (fun r => (m, r)) :=
      (filter_model_pred s.db.rows s.db.nextId m
          (fun r => (matched.map (fun x => x.id)).contains r.id)).trans
        (congrArg (fun l => l.map (fun r => ((m, r) : ModelName × Row)))
          hinner)
    have hinstseq : ((DB.mk s.db.rows s.db.nextId).table childM).filter
          (fun r => match r.parentId with
            | some w => (matched.map (fun x => x.id)).contains w
            | none => false)
        = insts := hinsts.symm
    have h5 : s.db.rows.filter
          (fun e => e.1 == childM
            && (match e.2.parentId with
              | some w => (matched.map (fun x => x.id)).contains w
              | none => false))
        = insts.map (fun r => (childM, r)) :=
      (filter_model_pred s.db.rows s.db.nextId childM
          (fun r => match r.parentId with
            | some w => (matched.map (fun x => x.id)).contains w
            | none => false)).trans
        (congrArg (fun l => l.map (fun r => ((childM, r) : ModelName × Row)))
          hinstseq)
    have hvic : ∀ e : ModelName × Row,
        isCascadeVictim m (matched.map (fun x => x.id)) e
        = ((e.1 == m && (matched.map (fun x => x.id)).contains e.2.id)
          || (e.1 == childM && (match e.2.parentId with
            | some w => (matched.map (fun x => x.id)).contains w
            | none => false))) := by
      intro e
      unfold isCascadeVictim
      rw [hrel]
      simp only [List.any_cons, List.any_nil, Bool.or_false]
      rw [beq_symm_model childM e.1]
    have hviceq : s.db.rows.filter
          (fun e => isCascadeVictim m (matched.map (fun x => x.id)) e)
        = s.db.rows.filter
          (fun e => (e.1 == m
              && (matched.map (fun x => x.id)).contains e.2.id)
            || (e.1 == childM
              && (match e.2.parentId with
                | some w => (matched.map (fun x => x.id)).contains w
                | none => false))) :=
      List.filter_congr (fun e _ => hvic e)
    have hdisj : ∀ e : ModelName × Row,
        (e.1 == m && (matched.map (fun x => x.id)).contains e.2.id) = true →
        (e.1 == childM && (match e.2.parentId with
          | some w => (matched.map (fun x => x.id)).contains w
          | none => false)) = false := by
      intro e he
      have h1 : e.1 = m := beq_iff_eq.mp ((Bool.and_eq_true _ _).mp he).1
      rw [h1]
      have h2 : (m == childM) = false := by
        simpa using fun hh => hcm hh.symm
      rw [h2]
      rfl
    have hAB : List.Perm
        (matched.map (fun r => (m, r)) ++ insts.map (fun r => (childM, r)))
        (s.db.rows.filter
          (fun e => isCascadeVictim m (matched.map (fun x => x.id)) e)) := by
      rw [← h4, ← h5, hviceq]
      exact (filter_or_disjoint_perm
        (fun e : ModelName × Row => e.1 == m
          && (matched.map (fun x => x.id)).contains e.2.id)
        (fun e : ModelName × Row => e.1 == childM
          && (match e.2.parentId with
            | some w => (matched.map (fun x => x.id)).contains w
            | none => false))
        hdisj s.db.rows).symm
    rw [hrows', List.append_assoc]
    refine List.Perm.trans (List.Perm.append_left _ hAB) ?_
    exact (filter_split_perm
      (fun e => isCascadeVictim m (matched.map (fun x => x.id)) e)
      s.db.rows).symm
  refine ⟨?_, ?_, ?_⟩
  · rw [hdel]
  · rw [hdel]
    simp only [undo_deletion, cacheGet_cacheSet_self, hrun]
  · rw [hdel]
    simp only [undo_deletion, cacheGet_cacheSet_self, hrun]
    exact hperm

/-- C1 (amended): the round trip holds for the id-range selection mode — for
every well-formed, schema-conformant database and every non-French word model,
`undo_deletion` of the operation id returned by `delete_by_id_range` reports
the matched count back and restores the data set to a permutation of the
pre-delete rows: same ids, same field values, same parent links.  The claim's
"for every selection mode" reading is false: in single-id mode the related
child rows are restored under fresh ids (counterexample `claim_C1_cex`). -/
theorem claim_C1_amended (m childM : ModelName) (fname : String)
    (hm : (m, childM, fname) ∈
      ([(.SpanishWord, .SpanishExample, "spanish_word"),
        (.ItalianWord, .ItalianExample, "italian_word"),
        (.RussianWord, .RussianExample, "russian_word"),
        (.JapaneseWord, .JapaneseExample, "japanese_word")]
        : List (ModelName × ModelName × String)))
    (a b : Nat) (s : OpState) (opId : String)
    (hwf : wfDB s.db) (hsch : schemaOk s.db)
    (hne : (s.db.table m).filter (fun r => a ≤ r.id && r.id ≤ b) ≠ [])
    (hser : (buildRangeSnapshot s.db m a b
        ((s.db.table m).filter
          (fun r => a ≤ r.id && r.id ≤ b))).jsonSerializable = true) :
    (delete_by_id_range m a b s opId).1
      = .ok (opId,
          ((s.db.table m).filter (fun r => a ≤ r.id && r.id ≤ b)).length) ∧
    (undo_deletion opId (delete_by_id_range m a b s opId).2).1
      = .ok ((s.db.table m).filter (fun r => a ≤ r.id && r.id ≤ b)).length ∧
    List.Perm
      (undo_deletion opId (delete_by_id_range m a b s opId).2).2.db.rows
      s.db.rows := by
  simp only [List.mem_cons, List.not_mem_nil, or_false, Prod.mk.injEq] at hm
  rcases hm with ⟨rfl, rfl, rfl⟩ | ⟨rfl, rfl, rfl⟩ | ⟨rfl, rfl, rfl⟩
    | ⟨rfl, rfl, rfl⟩
  · exact range_roundtrip_generic .SpanishWord .SpanishExample "spanish_word"
      a b s opId _ rfl rfl (by decide) rfl hwf hsch rfl hne hser
  · exact range_roundtrip_generic .ItalianWord .ItalianExample "italian_word"
      a b s opId _ rfl rfl (by decide) rfl hwf hsch rfl hne hser
  · exact range_roundtrip_generic .RussianWord .RussianExample "russian_word"
      a b s opId _ rfl rfl (by decide) rfl hwf hsch rfl hne hser
  · exact range_roundtrip_generic .JapaneseWord .JapaneseExample
      "japanese_word" a b s opId _ rfl rfl (by decide) rfl hwf hsch rfl hne
      hser

/-- C1, witness: the concrete range round trip on two SpanishWords with their
examples reports count 2 from both halves and restores the original rows. -/
theorem claim_C1_witness :
    (undo_deletion "w1" (delete_by_id_range .SpanishWord 1 2
        ⟨dbRangePair sampleWordAttrs sampleWordAttrs sampleExampleAttrs
          sampleExampleAttrs, []⟩ "w1").2).1 = .ok 2 ∧
    List.Perm
      (undo_deletion "w1" (delete_by_id_range .SpanishWord 1 2
        ⟨dbRangePair sampleWordAttrs sampleWordAttrs sampleExampleAttrs
          sampleExampleAttrs, []⟩ "w1").2).2.db.rows
      (dbRangePair sampleWordAttrs sampleWordAttrs sampleExampleAttrs
        sampleExampleAttrs).rows := by
  have h := claim_C1_amended .SpanishWord .SpanishExample "spanish_word"
    (by decide) 1 2
    ⟨dbRangePair sampleWordAttrs sampleWordAttrs sampleExampleAttrs
      sampleExampleAttrs, []⟩ "w1"
    (wfCheck_sound (by decide)) (schemaCheck_sound (by decide)) (by decide)
    (by decide)
  exact ⟨h.2.1, h.2.2⟩

/-- C6 (amended): `delete_by_id_range` selects exactly the rows whose id lies
in the inclusive range [startId, endId] as given: an empty selection —
including every swapped-bounds call — fails with `NotFound` and changes
nothing, and a nonempty one succeeds with the matched count and removes
precisely the in-range rows of the table.  The service itself performs no
normalization of swapped bounds (counterexample); that reordering is done by
the HTTP view, modelled by `delete_record_range`. -/
theorem claim_C6_amended (m : ModelName) (a b : Nat) (s : OpState)
    (opId : String) :
    (((s.db.table m).filter (fun r => a ≤ r.id && r.id ≤ b)) = [] →
        delete_by_id_range m a b s opId
          = (.error (.notFound "no records found in the ID range"), s)) ∧
    (((s.db.table m).filter (fun r => a ≤ r.id && r.id ≤ b)) ≠ [] →
      (buildRangeSnapshot s.db m a b
          ((s.db.table m).filter
            (fun r => a ≤ r.id && r.id ≤ b))).jsonSerializable = true →
        (delete_by_id_range m a b s opId).1
          = .ok (opId, ((s.db.table m).filter
              (fun r => a ≤ r.id && r.id ≤ b)).length) ∧
        (delete_by_id_range m a b s opId).2.db.table m
          = (s.db.table m).filter (fun r => !(a ≤ r.id && r.id ≤ b))) ∧
    delete_record_range m a b s opId
      = delete_by_id_range m (min a b) (max a b) s opId := by
  refine ⟨?_, ?_, ?_⟩
  · intro hmt
    simp only [delete_by_id_range, hmt, List.isEmpty_nil, if_true]
  · intro hne hser
    have hne2 : ((s.db.table m).filter
        (fun r => a ≤ r.id && r.id ≤ b)).isEmpty = false :=
      isEmpty_eq_false_of_ne_nil hne
    have hresult : delete_by_id_range m a b s opId
        = (.ok (opId, ((s.db.table m).filter
              (fun r => a ≤ r.id && r.id ≤ b)).length),
           ⟨cascadeDelete s.db m (((s.db.table m).filter
               (fun r => a ≤ r.id && r.id ≤ b)).map (fun x => x.id)),
            cacheSet s.cache ("deletion_" ++ opId)
              (buildRangeSnapshot s.db m a b ((s.db.table m).filter
                (fun r => a ≤ r.id && r.id ≤ b)))⟩) := by
      simp only [delete_by_id_range, hne2, Bool.false_eq_true, if_false,
        hser, if_true]
    refine ⟨by rw [hresult], ?_⟩
    rw [hresult]
    show (cascadeDelete s.db m _).table m
        = (s.db.table m).filter (fun r => !(a ≤ r.id && r.id ≤ b))
    rw [table_cascadeDelete]
    refine List.filter_congr ?_
    intro x hx
    have hcont : ((((s.db.table m).filter
        (fun r => a ≤ r.id && r.id ≤ b)).map (fun y => y.id)).contains x.id)
        = (a ≤ x.id && x.id ≤ b) := by
      by_cases hp : (a ≤ x.id && x.id ≤ b) = true
      · rw [hp]
        exact contains_map_id_iff.mpr ⟨x, List.mem_filter.mpr ⟨hx, hp⟩, rfl⟩
      · have hp2 : (a ≤ x.id && x.id ≤ b : Bool) = false := by
          rwa [Bool.not_eq_true] at hp
        rw [hp2, ← Bool.not_eq_true]
        intro hc
        rcases contains_map_id_iff.mp hc with ⟨y, hy, hyid⟩
        have hyp := (List.mem_filter.mp hy).2
        rw [hyid] at hyp
        exact Bool.noConfusion (hyp.symm.trans hp2)
    have hnoself : (relatedModels m).any (fun c => c.1 == m) = false := by
      cases m <;> decide
    simp only [isCascadeVictim, beq_self_eq_true, Bool.true_and, hnoself,
      Bool.false_and, Bool.or_false]
    rw [hcont]
  · unfold delete_record_range
    by_cases hab : a > b
    · rw [if_pos hab]
      rw [Nat.min_eq_right (Nat.le_of_lt hab),
        Nat.max_eq_left (Nat.le_of_lt hab)]
    · rw [if_neg hab]
      have hab2 : a ≤ b := Nat.le_of_not_lt hab
      rw [Nat.min_eq_left hab2, Nat.max_eq_right hab2]

/-- C6, witness: the ordered call (3, 5) on the table holding only
SpanishWord 4 succeeds with count 1. -/
theorem claim_C6_witness :
    (delete_by_id_range .SpanishWord 3 5 ⟨dbOneWordId4, []⟩ "w6").1
      = .ok ("w6", 1) :=
  (((claim_C6_amended .SpanishWord 3 5 ⟨dbOneWordId4, []⟩ "w6").2.1
    (by decide) (by decide)).1).trans (by decide)

/-- C7 (amended): the three bulk operations (`delete_by_field_value`,
`delete_by_id_range`, `delete_all`) return the operation id together with an
affected count equal to the number of matched primary rows; `delete_by_id`
reports success with the operation id alone — its return tuple carries no
count (counterexample), so no count, with or without descendants, is
reported. -/
theorem claim_C7_amended (m : ModelName) (i : Nat) (f fres : String) (v : Nat)
    (drp : Bool) (a b : Nat) (s : OpState) (opId : String) (inst : Row)
    (hinst : s.db.getById m i = some inst)
    (hser1 : (buildDeleteByIdSnapshot s.db m i inst).jsonSerializable = true)
    (hres : resolveFieldName m f = .ok fres)
    (hneF : ((s.db.table m).filter (fieldMatches m fres v)).isEmpty = false)
    (hserF : (buildByFieldSnapshot s.db m fres v drp
        ((s.db.table m).filter (fieldMatches m fres v))).jsonSerializable
          = true)
    (hneR : ((s.db.table m).filter
        (fun r => a ≤ r.id && r.id ≤ b)).isEmpty = false)
    (hserR : (buildRangeSnapshot s.db m a b ((s.db.table m).filter
        (fun r => a ≤ r.id && r.id ≤ b))).jsonSerializable = true)
    (hneA : (s.db.table m).isEmpty = false)
    (hserA : (buildAllSnapshot s.db m (s.db.table m)).jsonSerializable
        = true) :
    reportOfDeleteById (delete_by_id m i s opId).1 = .okNoCount opId ∧
    reportOfCountingDelete (delete_by_field_value m f v drp s opId).1
      = .okWithCount opId
          ((s.db.table m).filter (fieldMatches m fres v)).length ∧
    reportOfCountingDelete (delete_by_id_range m a b s opId).1
      = .okWithCount opId ((s.db.table m).filter
          (fun r => a ≤ r.id && r.id ≤ b)).length ∧
    reportOfCountingDelete (delete_all m s opId).1
      = .okWithCount opId (s.db.table m).length := by
  refine ⟨?_, ?_, ?_, ?_⟩
  · simp only [delete_by_id, hinst, hser1, if_true, reportOfDeleteById]
  · simp only [delete_by_field_value, hres, hneF, Bool.false_eq_true,
      if_false, hserF, if_true, reportOfCountingDelete]
  · simp only [delete_by_id_range, hneR, Bool.false_eq_true, if_false,
      hserR, if_true, reportOfCountingDelete]
  · simp only [delete_all, hneA, Bool.false_eq_true, if_false, hserA,
      if_true, reportOfCountingDelete]

/-- C7, witness: `delete_all` on the SpanishWord table reports both the
operation id and the count. -/
theorem claim_C7_witness :
    reportOfCountingDelete
        (delete_all .SpanishWord ⟨dbSingleSpanish, []⟩ "w7").1
      = .okWithCount "w7" 1 :=
  ((claim_C7_amended .SpanishWord 1 "id" "id" 1 false 1 1
      ⟨dbSingleSpanish, []⟩ "w7" ⟨1, none, sampleWordAttrs⟩
      (by decide) (by decide) (by decide) (by decide) (by decide) (by decide)
      (by decide) (by decide) (by decide)).2.2.2).trans (by decide)

/-- C7, counterexample: deleting FrenchWord 1 (which has three descendant
examples) by id succeeds, but the returned 2-tuple carries only the operation
id: no affected count of any kind is reported, let alone one including the
descendants. -/
theorem claim_C7_cex :
    (delete_by_id .FrenchWord 1 ⟨dbWordThreeExamples, []⟩ "op7").1
      = .ok "op7" ∧
    ¬ reportsIdAndCount (reportOfDeleteById
        (delete_by_id .FrenchWord 1 ⟨dbWordThreeExamples, []⟩ "op7").1) := by
  have h : (delete_by_id .FrenchWord 1 ⟨dbWordThreeExamples, []⟩ "op7").1
      = .ok "op7" := by decide
  refine ⟨h, ?_⟩
  rintro ⟨o, n, hc⟩
  rw [h] at hc
  simp [reportOfDeleteById] at hc

end AutomatedVocab
